import Mathlib

/-!
Verification of the argument-dialog core (`argument_dialog/argument_dialog_ui.py`).

The Python source is shallowly embedded below.  Conventions of the embedding:

* Python runtime values that can flow through the dialog are modelled by `Value`.
  Python floats are modelled only at integral values (`VFloat n` stands for the
  float `n.0`); no claim exercises non-integral float arithmetic.  `VCustom t`
  models an opaque instance of a user-defined class named `t`.
* Qt widgets are modelled by their observable state: the displayed control value,
  the `was_modified` flag, the `is_required` flag and the tooltip.  Qt signal
  behaviour relevant to the code is embedded faithfully: `QCheckBox.setChecked`
  and `QSpinBox.setValue` emit their change signal (which the code connects to
  `mark_as_modified`) exactly when the stored value changes, spin boxes clamp to
  the range `[-999999999, 999999999]` set in `build_widget`, and
  `QLineEdit.setText` does *not* emit `textEdited` (which is why
  `StringLineEditWidget.set_argument_value` calls `mark_as_modified` itself).
* Operations that can raise a Python exception return `Option` (`none` = raise).
* Python `str` values are manipulated as `List Char`; `String` is used at the
  API boundary.  Styling (colors) and the Qt layout calls carry no state that
  any claim mentions and are not modelled.
-/

/-- A Python runtime value as far as the dialog can observe it. -/
inductive Value where
  | VBool (b : Bool)
  | VInt (n : Int)
  | VFloat (n : Int)
  | VStr (s : String)
  | VNone
  | VCustom (tyName : String)
deriving DecidableEq

/-- `type(v).__name__` for the modelled values. -/
def Value.typeName : Value → String
  | .VBool _ => "bool"
  | .VInt _ => "int"
  | .VFloat _ => "float"
  | .VStr _ => "str"
  | .VNone => "NoneType"
  | .VCustom t => t

/-- `isinstance(v, str_types)`. -/
def Value.isStr : Value → Bool
  | .VStr _ => true
  | _ => false

/-- The concrete `ArgumentWidget` subclasses that appear in the
`type_widgets` table of `generate_argument_widgets`. -/
inductive WidgetCls where
  | BoolCheckBoxWidget
  | IntegerSpinBoxWidget
  | DoubleSpinBoxWidget
  | StringLineEditWidget
  | StringFilePathWidget
deriving DecidableEq

/-- Observable state of one `ArgumentWidget` instance: the class that was
instantiated, the constructor arguments that are stored as attributes
(`arg_name`, `default_value`, `was_modified`, `is_required`) and the state of
the wrapped Qt control (`value`), plus the tooltip installed by the dialog. -/
structure Widget where
  arg_name : String
  cls : WidgetCls
  default_value : Value
  value : Value
  was_modified : Bool
  is_required : Bool
  tooltip : String
deriving DecidableEq

/-- `ArgumentWidget.mark_as_modified` (the style change and the
`value_modified` signal emission carry no modelled state). -/
def Widget.mark_as_modified (w : Widget) : Widget :=
  { w with was_modified := true }

/-- The spin range fixed in `DoubleSpinBoxWidget.build_widget`:
`setMinimum(-999999999)` / `setMaximum(999999999)`.  Qt clamps `setValue`
arguments into this range. -/
def spinClamp (n : Int) : Int :=
  max (-999999999) (min 999999999 n)

/-- `set_argument_value` of each widget class.  `none` models a raised
exception (a value of a type the underlying Qt setter does not accept).

* `BoolCheckBoxWidget`: `check_box.setChecked(val)`; `stateChanged` (connected
  to `mark_as_modified`) fires iff the checked state changes.
* spin boxes: `spin_box.setValue(val)`; the value is clamped to the fixed
  range and `valueChanged` fires iff the stored value changes.
* `StringLineEditWidget` (and `StringFilePathWidget`, which inherits it):
  `line_edit.setText(val)` followed by an unconditional `mark_as_modified()`
  call (lines 193-195 of the source). -/
def Widget.set_argument_value (w : Widget) (val : Value) : Option Widget :=
  match w.cls with
  | .BoolCheckBoxWidget =>
    match w.value, val with
    | .VBool c, .VBool b =>
      some (if b = c then w else Widget.mark_as_modified { w with value := .VBool b })
    | _, _ => none
  | .IntegerSpinBoxWidget =>
    match w.value, val with
    | .VInt c, .VInt n =>
      some (if spinClamp n = c then w
            else Widget.mark_as_modified { w with value := .VInt (spinClamp n) })
    | _, _ => none
  | .DoubleSpinBoxWidget =>
    match w.value, val with
    | .VFloat c, .VFloat n =>
      some (if spinClamp n = c then w
            else Widget.mark_as_modified { w with value := .VFloat (spinClamp n) })
    | _, _ => none
  | .StringLineEditWidget =>
    match val with
    | .VStr s => some (Widget.mark_as_modified { w with value := .VStr s })
    | _ => none
  | .StringFilePathWidget =>
    match val with
    | .VStr s => some (Widget.mark_as_modified { w with value := .VStr s })
    | _ => none

/-- `get_argument_value` of every widget class reads the wrapped control
(`isChecked` / `value()` / `text()`), i.e. the modelled control state. -/
def Widget.get_argument_value (w : Widget) : Value :=
  w.value

/-- `ArgumentWidget.set_value_to_default`:
`set_argument_value(default_value)`, then `was_modified = False`, then the
`value_modified` signal and `mark_as_required` (style only). -/
def Widget.set_value_to_default (w : Widget) : Option Widget :=
  (w.set_argument_value w.default_value).map fun w' => { w' with was_modified := false }

/-- Instantiation `arg_widget_cls(param_name, default_value, is_required=...)`:
stores the attributes and runs `build_widget`, which initialises the Qt
control from `default_value` *before* connecting the change signal (so the
initial set never marks the widget modified).  Spin boxes clamp the initial
value into their fixed range.  `none` models a raised exception (default of a
type the control cannot display). -/
def buildWidget (cls : WidgetCls) (name : String) (default : Value)
    (is_required : Bool) : Option Widget :=
  match cls, default with
  | .BoolCheckBoxWidget, .VBool b =>
    some ⟨name, .BoolCheckBoxWidget, default, .VBool b, false, is_required, ""⟩
  | .IntegerSpinBoxWidget, .VInt n =>
    some ⟨name, .IntegerSpinBoxWidget, default, .VInt (spinClamp n), false, is_required, ""⟩
  | .DoubleSpinBoxWidget, .VFloat n =>
    some ⟨name, .DoubleSpinBoxWidget, default, .VFloat (spinClamp n), false, is_required, ""⟩
  | .StringLineEditWidget, .VStr s =>
    some ⟨name, .StringLineEditWidget, default, .VStr s, false, is_required, ""⟩
  | .StringFilePathWidget, .VStr s =>
    some ⟨name, .StringFilePathWidget, default, .VStr s, false, is_required, ""⟩
  | _, _ => none

/-- `ArgumentDialog.get_modified_values`: scan `generated_arg_widgets` in
order, skip unmodified widgets, route required ones into the positional list
and the rest into the keyword mapping. -/
def get_modified_values : List Widget → List Value × List (String × Value)
  | [] => ([], [])
  | w :: rest =>
    let r := get_modified_values rest
    if !w.was_modified then r
    else if w.is_required then (w.get_argument_value :: r.1, r.2)
    else (r.1, (w.arg_name, w.get_argument_value) :: r.2)

/-- **C1.** `get_modified_values` iterates the widgets in declaration order,
omits every widget with `was_modified = false`, sends each required-and-
modified widget's value to the positional list (order preserved) and each
non-required-and-modified widget's name/value to the keyword mapping; on the
`f(a, b=1)` scenario it returns `([], {})` with no edits, `([5], {})` after
editing `a` to `5`, and `([5], {"b": 9})` after additionally editing `b` to
`9`. -/
theorem get_modified_values_routes_modified_widgets :
    (∀ ws : List Widget,
      get_modified_values ws =
        ((ws.filter fun w => w.was_modified && w.is_required).map Widget.get_argument_value,
         (ws.filter fun w => w.was_modified && !w.is_required).map
           fun w => (w.arg_name, w.get_argument_value)))
    ∧ get_modified_values
        [⟨"a", .StringLineEditWidget, .VStr "", .VStr "", false, true, ""⟩,
         ⟨"b", .IntegerSpinBoxWidget, .VInt 1, .VInt 1, false, false, ""⟩] = ([], [])
    ∧ get_modified_values
        [⟨"a", .IntegerSpinBoxWidget, .VInt 0, .VInt 5, true, true, ""⟩,
         ⟨"b", .IntegerSpinBoxWidget, .VInt 1, .VInt 1, false, false, ""⟩] = ([.VInt 5], [])
    ∧ get_modified_values
        [⟨"a", .IntegerSpinBoxWidget, .VInt 0, .VInt 5, true, true, ""⟩,
         ⟨"b", .IntegerSpinBoxWidget, .VInt 1, .VInt 9, true, false, ""⟩]
        = ([.VInt 5], [("b", .VInt 9)]) := by
  refine ⟨?_, by decide, by decide, by decide⟩
  intro ws
  induction ws with
  | nil => rfl
  | cons w rest ih =>
    simp only [get_modified_values, ih, List.filter_cons, List.map]
    cases hm : w.was_modified <;> cases hr : w.is_required <;> simp [hm, hr]

/-- Which values a widget class can display: the argument types accepted by
the Qt setter its `set_argument_value` uses. -/
def WidgetCls.accepts : WidgetCls → Value → Bool
  | .BoolCheckBoxWidget, .VBool _ => true
  | .IntegerSpinBoxWidget, .VInt _ => true
  | .DoubleSpinBoxWidget, .VFloat _ => true
  | .StringLineEditWidget, .VStr _ => true
  | .StringFilePathWidget, .VStr _ => true
  | _, _ => false

/-- The widget classes whose `set_argument_value` is
`StringLineEditWidget.set_argument_value` (its own plus
`StringFilePathWidget`, which inherits it). -/
def WidgetCls.isLineEditBased : WidgetCls → Bool
  | .StringLineEditWidget => true
  | .StringFilePathWidget => true
  | _ => false

/-- The default of a spin-box widget lies inside the fixed
`[-999999999, 999999999]` range (vacuous for non-numeric defaults). -/
def Widget.defaultInRange (w : Widget) : Bool :=
  match w.default_value with
  | .VInt n => decide (-999999999 ≤ n) && decide (n ≤ 999999999)
  | .VFloat n => decide (-999999999 ≤ n) && decide (n ≤ 999999999)
  | _ => true

/-- Python `dict.get(k)` on an insertion-ordered association list. -/
def dictGet {α : Type} (k : String) : List (String × α) → Option α
  | [] => none
  | (k', v) :: rest => if k' = k then some v else dictGet k rest

/-- `d[k] = v` on a dict that already holds `k`: the value is replaced, the
insertion position of the key is kept. -/
def updateAssoc {α : Type} (l : List (String × α)) (k : String) (v : α) :
    List (String × α) :=
  match l with
  | [] => []
  | (k', v') :: rest =>
    if k' = k then (k', v) :: rest else (k', v') :: updateAssoc rest k v

/-- `d[k] = v` on an insertion-ordered dict: update in place when the key
exists, append otherwise. -/
def dictInsert {α : Type} (l : List (String × α)) (k : String) (v : α) :
    List (String × α) :=
  if k ∈ l.map Prod.fst then updateAssoc l k v else l ++ [(k, v)]

/-- The sentinel class `RequiresValueType`: the value stored by
`get_func_arguments` for a parameter with no default. -/
inductive ParamDefault where
  | RequiresValueType
  | val (v : Value)
deriving DecidableEq

/-- `get_func_arguments(func)`: record every parameter name with the
`RequiresValueType` sentinel, then right-align `arg_spec.defaults` against
the parameter names by zipping the reversed defaults with the reversed key
list. -/
def get_func_arguments (names : List String) (defaults : List Value) :
    List (String × ParamDefault) :=
  let parameter_dict := names.foldl (fun d n => dictInsert d n .RequiresValueType) []
  (defaults.reverse.zip ((parameter_dict.map Prod.fst).reverse)).foldl
    (fun d p => dictInsert d p.2 (.val p.1)) parameter_dict

/-- The `type_widgets` table at the top of `generate_argument_widgets`. -/
def type_widgets (t : String) : Option WidgetCls :=
  if t = "bool" then some .BoolCheckBoxWidget
  else if t = "str" then some .StringLineEditWidget
  else if t = "int" then some .IntegerSpinBoxWidget
  else if t = "float" then some .DoubleSpinBoxWidget
  else if t = "path" then some .StringFilePathWidget
  else none

/-- Widget-class resolution of `generate_argument_widgets` (lines 366-377):
the caller-supplied per-name override first, then the doc-string type tag
(only when the tag is truthy and registered), then the runtime type name of
the default value. -/
def resolveWidgetCls (input_arg_widget_dict : List (String × WidgetCls))
    (param_doc_string_types : List (String × String))
    (param_name param_type_name : String) : Option WidgetCls :=
  let cls0 := dictGet param_name input_arg_widget_dict
  let cls1 :=
    match cls0 with
    | some c => some c
    | none =>
      match dictGet param_name param_doc_string_types with
      | some doc_string_type =>
        if doc_string_type ≠ "" then type_widgets doc_string_type else none
      | none => none
  match cls1 with
  | some c => some c
  | none => type_widgets param_type_name

/-- The constructor arguments of `ArgumentDialog` that the claims mention.
`default_arg_type` is modelled by the instance `default_arg_type()` would
produce (`none` when the attribute is falsy). -/
structure DialogConfig where
  input_arg_widget_dict : List (String × WidgetCls)
  default_values : List (String × Value)
  default_arg_type : Option Value
deriving DecidableEq

/-- The default value actually used for a parameter (lines 362-364): the
declared default, or `default_arg_type()` (else `None`) for a required
parameter. -/
def effectiveDefault (default_arg_type : Option Value) : ParamDefault → Value
  | .RequiresValueType => default_arg_type.getD .VNone
  | .val v => v

/-- Whether a `ParamDefault` is the `RequiresValueType` sentinel
(`default_value == RequiresValueType`). -/
def ParamDefault.isRequired : ParamDefault → Bool
  | .RequiresValueType => true
  | .val _ => false

/-- Processing of one parameter in the `generate_argument_widgets` loop:
compute `is_required` and the effective default, resolve the widget class,
and if one was found instantiate it, install the tooltip (with the
`"parameter un-documented"` fallback) and apply any caller-supplied seed
value via `set_argument_value`.  `some none` models the unresolved case
(a printed diagnostic and no widget); the outer `none` models an exception
escaping the loop. -/
def genParam (cfg : DialogConfig)
    (param_tool_tips param_doc_string_types : List (String × String))
    (p : String × ParamDefault) : Option (Option Widget) :=
  let param_name := p.1
  let is_required := p.2.isRequired
  let default_value := effectiveDefault cfg.default_arg_type p.2
  match resolveWidgetCls cfg.input_arg_widget_dict param_doc_string_types
      param_name default_value.typeName with
  | none => some none
  | some arg_widget_cls =>
    match buildWidget arg_widget_cls param_name default_value is_required with
    | none => none
    | some w =>
      let w := { w with
        tooltip := (dictGet param_name param_tool_tips).getD "parameter un-documented" }
      match dictGet param_name cfg.default_values with
      | none => some (some w)
      | some seed => (w.set_argument_value seed).map some

/-- `Option`-valued `map` over a list, failing as soon as one element fails
(a raised exception aborts the widget-generation loop). -/
def mapOption {α β : Type} (f : α → Option β) : List α → Option (List β)
  | [] => some []
  | a :: as =>
    match f a, mapOption f as with
    | some b, some bs => some (b :: bs)
    | _, _ => none

/-- The widget-generation loop of `generate_argument_widgets` applied to the
already-parsed parameter list and doc-string dictionaries: parameters whose
class resolves produce a widget (in declaration order, collected into
`generated_arg_widgets`), unresolved parameters are skipped, and an exception
during construction or seeding aborts the whole dialog construction. -/
def genWidgets (cfg : DialogConfig)
    (param_tool_tips param_doc_string_types : List (String × String))
    (params : List (String × ParamDefault)) : Option (List Widget) :=
  (mapOption (genParam cfg param_tool_tips param_doc_string_types) params).map
    fun l => l.filterMap id

/-- The apostrophe character used by the preview's quoting rule. -/
def quoteChar : Char := Char.ofNat 39

/-- Python `needle in hay` for strings (substring test). -/
def containsSeq (needle : List Char) : List Char → Bool
  | [] => needle.isEmpty
  | c :: rest => needle.isPrefixOf (c :: rest) || containsSeq needle rest

/-- Python `s.lstrip(cutset)`: remove leading characters that belong to the
*set* of characters of `cutset` (not the prefix `cutset` itself). -/
def pyLstrip (cutset : List Char) (s : List Char) : List Char :=
  s.dropWhile fun c => cutset.contains c

/-- Python `s.split(sep)` for a single-character separator. -/
def splitOnChar (sep : Char) : List Char → List (List Char)
  | [] => [[]]
  | c :: rest =>
    match splitOnChar sep rest with
    | [] => [[c]]
    | part :: parts =>
      if c = sep then [] :: part :: parts else (c :: part) :: parts

/-- The characters strictly before the last occurrence of `c` in `cs`
(meaningful only when `c` occurs). -/
def beforeLast (c : Char) (cs : List Char) : List Char :=
  (((cs.reverse.dropWhile fun d => d ≠ c)).drop 1).reverse

/-- `re.search('<(.*)>', text)`: the first position where the pattern
matches is the first `<` that still has a `>` after it, and the greedy `.*`
then extends to the last `>` of the text; `group(1)` is the text between
them.  `none` when the pattern does not match. -/
def findTag : List Char → Option (List Char)
  | [] => none
  | c :: rest =>
    if c = '<' then
      if rest.contains '>' then some (beforeLast '>' rest) else findTag rest
    else findTag rest

/-- One iteration of the doc-string loop in `generate_argument_widgets`
(lines 323-342): skip lines without `":param "`, `lstrip(":param ")` the
line, split on `":"`, skip one-part results and blank descriptions, and
return the name part, the description part and the regex tag (if any).
Every operation in the guarded body is total, so the surrounding
`try/except` never fires; `none` is a silently skipped line. -/
def parseDocLine (doc_line : List Char) : Option (List Char × List Char × Option (List Char)) :=
  if !containsSeq ":param ".toList doc_line then none
  else
    match splitOnChar ':' (pyLstrip ":param ".toList doc_line) with
    | [] => none
    | [_] => none
    | name :: desc :: _ =>
      if desc.isEmpty then none
      else some (name, desc, findTag desc)

/-- Folding one doc line into the `param_tool_tips` /
`param_doc_string_types` dictionaries. -/
def paramDocStep (acc : List (String × String) × List (String × String))
    (line : String) : List (String × String) × List (String × String) :=
  match parseDocLine line.toList with
  | none => acc
  | some (name, desc, tag) =>
    let tips := dictInsert acc.1 (String.mk name) (String.mk desc)
    let types :=
      match tag with
      | none => acc.2
      | some t => dictInsert acc.2 (String.mk name) (String.mk t)
    (tips, types)

/-- The doc-string scan of `generate_argument_widgets`: the
`param_tool_tips` and `param_doc_string_types` dictionaries built from the
lines of `inspect.getdoc(func)`. -/
def paramDocParse (doc_lines : List String) :
    List (String × String) × List (String × String) :=
  doc_lines.foldl paramDocStep ([], [])

/-- A parameter-doc line the loop skips: no `":param "` marker, or the
split produced a single piece, or the description between the first and
second colon is blank. -/
def docLineMalformed (cs : List Char) : Prop :=
  containsSeq ":param ".toList cs = false
  ∨ (splitOnChar ':' (pyLstrip ":param ".toList cs)).length = 1
  ∨ (splitOnChar ':' (pyLstrip ":param ".toList cs)).get? 1 = some []

/-- `ArgumentDialog.generate_argument_widgets` end to end: parse the doc
string, inspect the signature, and run the widget-generation loop. -/
def generate_argument_widgets (cfg : DialogConfig) (doc_lines : List String)
    (names : List String) (defaults : List Value) : Option (List Widget) :=
  let parsed := paramDocParse doc_lines
  genWidgets cfg parsed.1 parsed.2 (get_func_arguments names defaults)

/-- **C2 (counterexample).** Seeding is not modification-neutral: building the
form for `f(file_path="")` with the caller-supplied seed
`default_values={"file_path": "seeded"}` leaves the generated string widget
with `was_modified = True`, because `StringLineEditWidget.set_argument_value`
calls `mark_as_modified()` unconditionally. -/
theorem seeding_marks_string_widget_modified :
    generate_argument_widgets ⟨[], [("file_path", .VStr "seeded")], some (.VStr "")⟩
        [] ["file_path"] [.VStr ""]
      = some [⟨"file_path", .StringLineEditWidget, .VStr "", .VStr "seeded", true, false,
              "parameter un-documented"⟩]
    ∧ (⟨"file_path", .StringLineEditWidget, .VStr "", .VStr "seeded", true, false,
        "parameter un-documented"⟩ : Widget).was_modified = true := by
  exact ⟨by decide, rfl⟩

/-- **C2 (amended).** Applying a seed value through `set_argument_value` to a
freshly built widget marks it modified exactly when the widget is line-edit
based (string or file-path kind, whose `set_argument_value` calls
`mark_as_modified` itself) or the seed changes the displayed control value;
only a checkbox or spin-box widget seeded with the value it already displays
keeps `was_modified = false`. -/
theorem seeding_modification_characterization
    (cls : WidgetCls) (name : String) (default seed : Value) (req : Bool)
    (w w' : Widget)
    (hbuild : buildWidget cls name default req = some w)
    (hseed : w.set_argument_value seed = some w') :
    w'.was_modified = (cls.isLineEditBased || decide (w'.value ≠ w.value)) := by
  cases cls <;> cases default <;>
    simp only [buildWidget, Option.some.injEq, reduceCtorEq] at hbuild <;>
    subst hbuild <;> cases seed <;>
    simp only [Widget.set_argument_value, Widget.mark_as_modified, Option.some.injEq,
      reduceCtorEq] at hseed <;>
    subst hseed <;> (try split) <;> simp_all [WidgetCls.isLineEditBased]

/-- Closed instance of `seeding_modification_characterization`: a checkbox
widget seeded with its displayed default keeps `was_modified = false`. -/
theorem seeding_modification_characterization_witness :
    buildWidget .BoolCheckBoxWidget "flag" (.VBool false) false
      = some ⟨"flag", .BoolCheckBoxWidget, .VBool false, .VBool false, false, false, ""⟩
    ∧ (⟨"flag", .BoolCheckBoxWidget, .VBool false, .VBool false, false, false, ""⟩ :
        Widget).set_argument_value (.VBool false)
      = some ⟨"flag", .BoolCheckBoxWidget, .VBool false, .VBool false, false, false, ""⟩
    ∧ (⟨"flag", .BoolCheckBoxWidget, .VBool false, .VBool false, false, false, ""⟩ :
        Widget).was_modified
      = (WidgetCls.BoolCheckBoxWidget.isLineEditBased
         || decide ((⟨"flag", .BoolCheckBoxWidget, .VBool false, .VBool false, false, false,
              ""⟩ : Widget).value
            ≠ (⟨"flag", .BoolCheckBoxWidget, .VBool false, .VBool false, false, false, ""⟩ :
                Widget).value)) :=
  ⟨by decide, by decide,
   seeding_modification_characterization .BoolCheckBoxWidget "flag" (.VBool false)
     (.VBool false) false _ _ (by decide) (by decide)⟩

/-- **C4 (counterexample).** An `IntegerSpinBoxWidget` built for a default of
`1000000000` (legal as a Python default, but above the spin box's fixed
maximum `999999999`): `set_value_to_default` succeeds and clears
`was_modified`, but `get_argument_value` afterwards returns the clamped
`999999999`, not the widget's `default_value`. -/
theorem reset_clamps_out_of_range_default :
    (buildWidget .IntegerSpinBoxWidget "n" (.VInt 1000000000) false).bind
        Widget.set_value_to_default
      = some ⟨"n", .IntegerSpinBoxWidget, .VInt 1000000000, .VInt 999999999, false, false, ""⟩
    ∧ (⟨"n", .IntegerSpinBoxWidget, .VInt 1000000000, .VInt 999999999, false, false, ""⟩ :
        Widget).get_argument_value = .VInt 999999999
    ∧ (⟨"n", .IntegerSpinBoxWidget, .VInt 1000000000, .VInt 999999999, false, false, ""⟩ :
        Widget).default_value = .VInt 1000000000
    ∧ (Value.VInt 999999999 ≠ .VInt 1000000000) := by
  exact ⟨by decide, rfl, rfl, by decide⟩

/-- **C4 (amended).** For every widget whose control and default value are of
the kind its class displays, `set_value_to_default` never fails and always
leaves `is_modified() = false`; `get_value()` afterwards returns exactly
`default_value` whenever the default lies inside the spin boxes' fixed
`[-999999999, 999999999]` range (always, for non-numeric widgets) — an
out-of-range numeric default is clamped instead. -/
theorem reset_is_total_and_restores_default
    (w : Widget)
    (hv : w.cls.accepts w.value = true)
    (hd : w.cls.accepts w.default_value = true) :
    ∃ w', w.set_value_to_default = some w'
      ∧ w'.was_modified = false
      ∧ (w.defaultInRange = true → w'.get_argument_value = w.default_value) := by
  obtain ⟨name, cls, default, value, wm, req, tip⟩ := w
  cases cls <;> cases value <;> simp [WidgetCls.accepts] at hv <;> cases default <;>
    simp [WidgetCls.accepts] at hd <;>
    simp only [Widget.set_value_to_default, Widget.set_argument_value,
      Widget.mark_as_modified, Option.map_some'] <;>
    refine ⟨_, rfl, ?_⟩ <;>
    (try split) <;>
    simp_all [Widget.get_argument_value, Widget.defaultInRange, spinClamp] <;>
    omega

/-- Closed instance of `reset_is_total_and_restores_default`: resetting an
edited checkbox widget restores the default and clears the flag. -/
theorem reset_is_total_and_restores_default_witness :
    (WidgetCls.BoolCheckBoxWidget.accepts
        (⟨"flag", .BoolCheckBoxWidget, .VBool true, .VBool false, true, false, ""⟩ :
          Widget).value = true)
    ∧ (WidgetCls.BoolCheckBoxWidget.accepts
        (⟨"flag", .BoolCheckBoxWidget, .VBool true, .VBool false, true, false, ""⟩ :
          Widget).default_value = true)
    ∧ ∃ w', (⟨"flag", .BoolCheckBoxWidget, .VBool true, .VBool false, true, false, ""⟩ :
          Widget).set_value_to_default = some w'
        ∧ w'.was_modified = false
        ∧ ((⟨"flag", .BoolCheckBoxWidget, .VBool true, .VBool false, true, false, ""⟩ :
            Widget).defaultInRange = true → w'.get_argument_value = .VBool true) :=
  ⟨by decide, by decide,
   reset_is_total_and_restores_default
     ⟨"flag", .BoolCheckBoxWidget, .VBool true, .VBool false, true, false, ""⟩
     (by decide) (by decide)⟩

/-- **C3.** The doc line `":param path: a file to load <path>"` documenting a
parameter named `path`: because line 327 uses `lstrip(":param ")` — which
strips the character *set* and therefore also eats the leading `"pa"` of
`"path"` — the tooltip and the `<path>` tag are recorded under the mangled
key `"th"`.  Parameter `path` itself gets no tooltip and no declared type
tag, and (the tag `"path"` being registered in `type_widgets`) its widget
resolves through the default-type rule to `StringLineEditWidget` instead of
the file-path widget, with the `"parameter un-documented"` tooltip. -/
theorem doc_tag_lost_for_param_named_path :
    paramDocParse [":param path: a file to load <path>"]
      = ([("th", " a file to load <path>")], [("th", "path")])
    ∧ dictGet "path" (paramDocParse [":param path: a file to load <path>"]).1 = none
    ∧ dictGet "path" (paramDocParse [":param path: a file to load <path>"]).2 = none
    ∧ type_widgets "path" = some .StringFilePathWidget
    ∧ generate_argument_widgets ⟨[], [], some (.VStr "")⟩
        [":param path: a file to load <path>"] ["path"] []
      = some [⟨"path", .StringLineEditWidget, .VStr "", .VStr "", false, true,
              "parameter un-documented"⟩] := by
  exact ⟨by decide, by decide, by decide, by decide, by decide⟩


/-- A constructed widget carries the parameter name it was built for. -/
theorem buildWidget_arg_name {cls : WidgetCls} {name : String} {d : Value}
    {r : Bool} {w : Widget} (h : buildWidget cls name d r = some w) :
    w.arg_name = name := by
  cases cls <;> cases d <;> simp [buildWidget] at h <;> subst h <;> rfl

/-- `set_argument_value` never changes `arg_name`. -/
theorem set_argument_value_arg_name {w w' : Widget} {v : Value}
    (h : w.set_argument_value v = some w') : w'.arg_name = w.arg_name := by
  unfold Widget.set_argument_value Widget.mark_as_modified at h
  split at h <;> (try split at h) <;>
    simp only [Option.some.injEq, reduceCtorEq] at h <;>
    (try subst h) <;> (try split) <;> rfl

/-- Closed form of `get_modified_values` as two order-preserving filters. -/
theorem get_modified_values_eq (ws : List Widget) :
    get_modified_values ws =
      ((ws.filter fun w => w.was_modified && w.is_required).map Widget.get_argument_value,
       (ws.filter fun w => w.was_modified && !w.is_required).map
         fun w => (w.arg_name, w.get_argument_value)) := by
  induction ws with
  | nil => rfl
  | cons w rest ih =>
    simp only [get_modified_values, ih, List.filter_cons, List.map]
    cases hm : w.was_modified <;> cases hr : w.is_required <;> simp [hm, hr]

/-- Every key in the keyword mapping of `get_modified_values` is the name of
one of the scanned widgets. -/
theorem gmv_kwarg_keys_are_widget_names (ws : List Widget) (kv : String × Value)
    (h : kv ∈ (get_modified_values ws).2) : kv.1 ∈ ws.map Widget.arg_name := by
  rw [get_modified_values_eq] at h
  simp only [List.mem_map, List.mem_filter] at h
  obtain ⟨w, ⟨hw, _⟩, hkv⟩ := h
  exact List.mem_map.mpr ⟨w, hw, by rw [← hkv]⟩

/-- Every positional value of `get_modified_values` is the current value of
one of the scanned widgets. -/
theorem gmv_args_are_widget_values (ws : List Widget) (v : Value)
    (h : v ∈ (get_modified_values ws).1) :
    ∃ w, w ∈ ws ∧ v = w.get_argument_value := by
  rw [get_modified_values_eq] at h
  simp only [List.mem_map, List.mem_filter] at h
  obtain ⟨w, ⟨hw, _⟩, hv⟩ := h
  exact ⟨w, hw, hv.symm⟩

/-- A widget produced by `genParam` for parameter `p` is named `p.1`. -/
theorem genParam_arg_name {cfg : DialogConfig}
    {tips dt : List (String × String)} {p : String × ParamDefault} {w : Widget}
    (h : genParam cfg tips dt p = some (some w)) : w.arg_name = p.1 := by
  simp only [genParam] at h
  cases hres : resolveWidgetCls cfg.input_arg_widget_dict dt p.1
      (effectiveDefault cfg.default_arg_type p.2).typeName <;> simp only [hres] at h
  · exact absurd h (by simp)
  case some cls =>
    cases hb : buildWidget cls p.1 (effectiveDefault cfg.default_arg_type p.2)
        p.2.isRequired <;> simp only [hb] at h
    · exact absurd h (by simp)
    case some w0 =>
      have hname := buildWidget_arg_name hb
      cases hseed : dictGet p.1 cfg.default_values <;> simp only [hseed] at h
      · simp only [Option.some.injEq] at h
        rw [← h]
        exact hname
      case some seed =>
        simp only [Option.map_eq_some', Option.some.injEq] at h
        obtain ⟨w1, hset, hw1⟩ := h
        subst hw1
        rw [set_argument_value_arg_name hset]
        exact hname

/-- Parameters whose `genParam` run yields no widget contribute no name to
the generated widget list. -/
theorem genWidgets_skips_param :
    ∀ (params : List (String × ParamDefault)) (cfg : DialogConfig)
      (tips dt : List (String × String)) (x : String) (ws : List Widget),
      (∀ p, p ∈ params → p.1 = x → genParam cfg tips dt p = some none) →
      genWidgets cfg tips dt params = some ws →
      x ∉ ws.map Widget.arg_name := by
  intro params
  induction params with
  | nil =>
    intro cfg tips dt x ws _ hgen
    simp only [genWidgets, mapOption, Option.map_some', Option.some.injEq] at hgen
    subst hgen
    simp
  | cons p rest ih =>
    intro cfg tips dt x ws hskip hgen
    simp only [genWidgets, mapOption] at hgen
    cases hp : genParam cfg tips dt p <;> rw [hp] at hgen
    · simp at hgen
    case some o =>
      cases hrest : mapOption (genParam cfg tips dt) rest <;> rw [hrest] at hgen
      · simp at hgen
      case some os =>
        simp only [Option.map_some', Option.some.injEq] at hgen
        have hrest' : genWidgets cfg tips dt rest = some (os.filterMap id) := by
          simp [genWidgets, hrest]
        have htail := ih cfg tips dt x (os.filterMap id)
          (fun q hq hqx => hskip q (List.mem_cons_of_mem _ hq) hqx) hrest'
        by_cases hx : p.1 = x
        · have ho : o = none := by
            have hs := hskip p (List.mem_cons_self _ _) hx
            rw [hp] at hs
            exact Option.some_injective _ hs
          subst ho
          rw [← hgen]
          simpa using htail
        · cases o with
          | none =>
            rw [← hgen]
            simpa using htail
          | some w =>
            rw [← hgen]
            have hname : w.arg_name = p.1 := genParam_arg_name hp
            have hfm : (some w :: os).filterMap id = w :: os.filterMap id := rfl
            rw [hfm]
            simp only [List.map_cons, List.mem_cons]
            intro hc
            rcases hc with hc | hc
            · exact hx (by rw [← hname, hc])
            · exact htail hc

/-- **C5.** Widget-kind resolution is first-match-wins in the order
caller-supplied override, registered doc-string tag, runtime type name of the
resolved default; and a required parameter with no default is typed from the
empty instance produced by `default_arg_type` (string by default), so with no
override and no doc tag and the default string fallback it gets a
`StringLineEditWidget` whose default value is the empty string. -/
theorem widget_kind_resolution_order :
    (∀ (ov : List (String × WidgetCls)) (dt : List (String × String))
        (name ty : String) (k : WidgetCls),
        dictGet name ov = some k → resolveWidgetCls ov dt name ty = some k)
    ∧ (∀ (ov : List (String × WidgetCls)) (dt : List (String × String))
        (name ty t : String) (k : WidgetCls),
        dictGet name ov = none → dictGet name dt = some t → t ≠ "" →
        type_widgets t = some k → resolveWidgetCls ov dt name ty = some k)
    ∧ (∀ (ov : List (String × WidgetCls)) (dt : List (String × String))
        (name ty : String),
        dictGet name ov = none →
        (dictGet name dt = none
         ∨ ∃ t, dictGet name dt = some t ∧ (t = "" ∨ type_widgets t = none)) →
        resolveWidgetCls ov dt name ty = type_widgets ty)
    ∧ (∀ (cfg : DialogConfig) (tips dt : List (String × String)) (name : String),
        cfg.default_arg_type = some (.VStr "") →
        dictGet name cfg.input_arg_widget_dict = none →
        dictGet name dt = none →
        dictGet name cfg.default_values = none →
        genParam cfg tips dt (name, .RequiresValueType)
          = some (some ⟨name, .StringLineEditWidget, .VStr "", .VStr "", false, true,
                  (dictGet name tips).getD "parameter un-documented"⟩)) := by
  refine ⟨?_, ?_, ?_, ?_⟩
  · intro ov dt name ty k h
    simp [resolveWidgetCls, h]
  · intro ov dt name ty t k h0 ht hne hw
    simp [resolveWidgetCls, h0, ht, hne, hw]
  · intro ov dt name ty h0 hcase
    rcases hcase with hnone | ⟨t, ht, hbad⟩
    · simp [resolveWidgetCls, h0, hnone]
    · rcases hbad with rfl | hnone
      · simp [resolveWidgetCls, h0, ht]
      · by_cases ht0 : t = ""
        · subst ht0; simp [resolveWidgetCls, h0, ht]
        · simp [resolveWidgetCls, h0, ht, ht0, hnone]
  · intro cfg tips dt name hfb hov hdt hseed
    simp [genParam, resolveWidgetCls, hov, hdt, effectiveDefault, hfb,
      Value.typeName, type_widgets, buildWidget, ParamDefault.isRequired, hseed]

/-- Closed instance of `widget_kind_resolution_order`: a required parameter
with no override, no doc tag and the default string fallback gets a string
widget seeded with the empty string. -/
theorem widget_kind_resolution_order_witness :
    (⟨[], [], some (.VStr "")⟩ : DialogConfig).default_arg_type = some (.VStr "")
    ∧ dictGet "arg" (⟨[], [], some (.VStr "")⟩ : DialogConfig).input_arg_widget_dict = none
    ∧ dictGet "arg" ([] : List (String × String)) = none
    ∧ dictGet "arg" (⟨[], [], some (.VStr "")⟩ : DialogConfig).default_values = none
    ∧ genParam ⟨[], [], some (.VStr "")⟩ [] [] ("arg", .RequiresValueType)
        = some (some ⟨"arg", .StringLineEditWidget, .VStr "", .VStr "", false, true,
                (dictGet "arg" ([] : List (String × String))).getD "parameter un-documented"⟩) :=
  ⟨rfl, rfl, rfl, rfl,
   widget_kind_resolution_order.2.2.2 ⟨[], [], some (.VStr "")⟩ [] [] "arg"
     rfl rfl rfl rfl⟩

/-- **C7.** A parameter `x` whose resolved default is an instance of an
unregistered custom type, with no override and no doc tag, resolves to no
widget class: `genParam` skips it without failing, the one-parameter form
builds successfully with an empty widget list, and in every reachable edit
state of any form generated with `x` among its parameters the keyword map
contains no key `x` and every positional value comes from a widget whose
name differs from `x`. -/
theorem unresolved_param_never_called
    (cfg : DialogConfig) (tips dt : List (String × String)) (x tyName : String)
    (params : List (String × ParamDefault)) (ws : List Widget)
    (hfb : cfg.default_arg_type = some (.VCustom tyName))
    (hty : type_widgets tyName = none)
    (hov : dictGet x cfg.input_arg_widget_dict = none)
    (hdt : dictGet x dt = none) :
    genParam cfg tips dt (x, .RequiresValueType) = some none
    ∧ genWidgets cfg tips dt [(x, .RequiresValueType)] = some []
    ∧ (genWidgets cfg tips dt params = some ws →
        (∀ q, (x, q) ∈ params → q = .RequiresValueType) →
        x ∉ ws.map Widget.arg_name
        ∧ ∀ ws' : List Widget, ws'.map Widget.arg_name = ws.map Widget.arg_name →
            (∀ kv, kv ∈ (get_modified_values ws').2 → kv.1 ≠ x)
            ∧ (∀ v, v ∈ (get_modified_values ws').1 →
                ∃ w, w ∈ ws' ∧ w.arg_name ≠ x ∧ v = w.get_argument_value)) := by
  have hskip : genParam cfg tips dt (x, .RequiresValueType) = some none := by
    simp [genParam, resolveWidgetCls, hov, hdt, effectiveDefault, hfb,
      Value.typeName, hty]
  refine ⟨hskip, by simp [genWidgets, mapOption, hskip], ?_⟩
  intro hgen hall
  have hnames : x ∉ ws.map Widget.arg_name := by
    refine genWidgets_skips_param params cfg tips dt x ws ?_ hgen
    intro p hp hpx
    obtain ⟨n, q⟩ := p
    simp only at hpx
    subst hpx
    have hq := hall q hp
    subst hq
    exact hskip
  refine ⟨hnames, ?_⟩
  intro ws' hsame
  constructor
  · intro kv hkv heq
    have hmem := gmv_kwarg_keys_are_widget_names ws' kv hkv
    rw [hsame, heq] at hmem
    exact hnames hmem
  · intro v hv
    obtain ⟨w, hw, hval⟩ := gmv_args_are_widget_values ws' v hv
    refine ⟨w, hw, ?_, hval⟩
    intro heq
    apply hnames
    rw [← hsame]
    exact List.mem_map.mpr ⟨w, hw, heq⟩

/-- Closed instance of `unresolved_param_never_called`: a required parameter
of unregistered type `CustomType` is skipped and the form builds. -/
theorem unresolved_param_never_called_witness :
    (⟨[], [], some (.VCustom "CustomType")⟩ : DialogConfig).default_arg_type
        = some (.VCustom "CustomType")
    ∧ type_widgets "CustomType" = none
    ∧ genParam ⟨[], [], some (.VCustom "CustomType")⟩ [] [] ("x", .RequiresValueType)
        = some none
    ∧ genWidgets ⟨[], [], some (.VCustom "CustomType")⟩ [] [] [("x", .RequiresValueType)]
        = some [] :=
  ⟨rfl, by decide,
   (unresolved_param_never_called ⟨[], [], some (.VCustom "CustomType")⟩ [] [] "x"
     "CustomType" [("x", .RequiresValueType)] [] rfl (by decide) rfl rfl).1,
   (unresolved_param_never_called ⟨[], [], some (.VCustom "CustomType")⟩ [] [] "x"
     "CustomType" [("x", .RequiresValueType)] [] rfl (by decide) rfl rfl).2.1⟩

/-- `updateAssoc` preserves the key sequence. -/
theorem updateAssoc_map_fst {α : Type} (l : List (String × α)) (k : String) (v : α) :
    (updateAssoc l k v).map Prod.fst = l.map Prod.fst := by
  induction l with
  | nil => rfl
  | cons p rest ih =>
    obtain ⟨k', v'⟩ := p
    by_cases h : k' = k <;> simp [updateAssoc, h, ih]

/-- Updating a key that lives in the right part of an append. -/
theorem updateAssoc_append_right {α : Type} (l1 l2 : List (String × α)) (k : String)
    (v : α) (h : k ∉ l1.map Prod.fst) :
    updateAssoc (l1 ++ l2) k v = l1 ++ updateAssoc l2 k v := by
  induction l1 with
  | nil => rfl
  | cons p rest ih =>
    obtain ⟨k', v'⟩ := p
    simp only [List.map_cons, List.mem_cons] at h
    push_neg at h
    simp [updateAssoc, Ne.symm h.1, ih h.2]

/-- Updating a key that lives in the left part of an append. -/
theorem updateAssoc_append_left {α : Type} (l1 l2 : List (String × α)) (k : String)
    (v : α) (h : k ∈ l1.map Prod.fst) :
    updateAssoc (l1 ++ l2) k v = updateAssoc l1 k v ++ l2 := by
  induction l1 with
  | nil => simp at h
  | cons p rest ih =>
    obtain ⟨k', v'⟩ := p
    by_cases hk : k' = k
    · simp [updateAssoc, hk]
    · simp only [List.map_cons, List.mem_cons] at h
      rcases h with h | h
      · exact absurd h.symm hk
      · simp [updateAssoc, hk, ih h]

/-- Inserting a fresh key appends it. -/
theorem dictInsert_fresh {α : Type} (l : List (String × α)) (k : String) (v : α)
    (h : k ∉ l.map Prod.fst) : dictInsert l k v = l ++ [(k, v)] := by
  simp [dictInsert, h]

/-- Inserting an existing key updates it in place. -/
theorem dictInsert_mem {α : Type} (l : List (String × α)) (k : String) (v : α)
    (h : k ∈ l.map Prod.fst) : dictInsert l k v = updateAssoc l k v := by
  simp [dictInsert, h]

/-- Inserting an existing key preserves the key sequence. -/
theorem dictInsert_map_fst_mem {α : Type} (l : List (String × α)) (k : String) (v : α)
    (h : k ∈ l.map Prod.fst) : (dictInsert l k v).map Prod.fst = l.map Prod.fst := by
  rw [dictInsert_mem l k v h, updateAssoc_map_fst]

/-- Folding fresh distinct keys into a dict appends them in order. -/
theorem foldl_dictInsert_fresh :
    ∀ (names : List String) (acc : List (String × ParamDefault)),
      names.Nodup → (∀ n ∈ names, n ∉ acc.map Prod.fst) →
      names.foldl (fun d n => dictInsert d n .RequiresValueType) acc
        = acc ++ names.map fun n => (n, ParamDefault.RequiresValueType) := by
  intro names
  induction names with
  | nil => intro acc _ _; simp
  | cons n rest ih =>
    intro acc hnd hfresh
    have hn := hfresh n (List.mem_cons_self _ _)
    have hfresh' : ∀ m ∈ rest,
        m ∉ (acc ++ [(n, ParamDefault.RequiresValueType)]).map Prod.fst := by
      intro m hm
      simp only [List.map_append, List.mem_append, List.map_cons, List.map_nil,
        List.mem_singleton, not_or]
      refine ⟨fun h => hfresh m (List.mem_cons_of_mem _ hm) h, fun h => ?_⟩
      subst h
      exact (List.nodup_cons.mp hnd).1 hm
    simp only [List.foldl_cons]
    rw [dictInsert_fresh acc n _ hn,
      ih (acc ++ [(n, ParamDefault.RequiresValueType)]) (List.nodup_cons.mp hnd).2 hfresh']
    simp

/-- Folding default-assignments whose keys all live in the left part of an
append keeps the right part untouched. -/
theorem foldl_dict_pairs_left :
    ∀ (ps : List (Value × String)) (l1 l2 : List (String × ParamDefault)),
      (∀ p ∈ ps, p.2 ∈ l1.map Prod.fst) →
      ps.foldl (fun d p => dictInsert d p.2 (.val p.1)) (l1 ++ l2)
        = ps.foldl (fun d p => dictInsert d p.2 (.val p.1)) l1 ++ l2 := by
  intro ps
  induction ps with
  | nil => intros; rfl
  | cons p rest ih =>
    intro l1 l2 hmem
    have h1 : p.2 ∈ l1.map Prod.fst := hmem p (List.mem_cons_self _ _)
    have h12 : p.2 ∈ (l1 ++ l2).map Prod.fst := by
      simp only [List.map_append, List.mem_append]
      exact Or.inl h1
    simp only [List.foldl_cons]
    rw [dictInsert_mem _ _ _ h12, updateAssoc_append_left _ _ _ _ h1,
      ← dictInsert_mem _ _ _ h1]
    exact ih (dictInsert l1 p.2 (.val p.1)) l2
      (fun q hq => by
        rw [dictInsert_map_fst_mem _ _ _ h1]
        exact hmem q (List.mem_cons_of_mem _ hq))

/-- Folding default-assignments whose keys all live in the right part of an
append keeps the left part untouched. -/
theorem foldl_dict_pairs_right :
    ∀ (ps : List (Value × String)) (l1 l2 : List (String × ParamDefault)),
      (∀ p ∈ ps, p.2 ∉ l1.map Prod.fst) →
      (∀ p ∈ ps, p.2 ∈ l2.map Prod.fst) →
      ps.foldl (fun d p => dictInsert d p.2 (.val p.1)) (l1 ++ l2)
        = l1 ++ ps.foldl (fun d p => dictInsert d p.2 (.val p.1)) l2 := by
  intro ps
  induction ps with
  | nil => intros; rfl
  | cons p rest ih =>
    intro l1 l2 hnot hmem
    have h1 : p.2 ∉ l1.map Prod.fst := hnot p (List.mem_cons_self _ _)
    have h2 : p.2 ∈ l2.map Prod.fst := hmem p (List.mem_cons_self _ _)
    have h12 : p.2 ∈ (l1 ++ l2).map Prod.fst := by
      simp only [List.map_append, List.mem_append]
      exact Or.inr h2
    simp only [List.foldl_cons]
    rw [dictInsert_mem _ _ _ h12, updateAssoc_append_right _ _ _ _ h1,
      ← dictInsert_mem _ _ _ h2]
    exact ih l1 (dictInsert l2 p.2 (.val p.1))
      (fun q hq => hnot q (List.mem_cons_of_mem _ hq))
      (fun q hq => by
        rw [dictInsert_map_fst_mem _ _ _ h2]
        exact hmem q (List.mem_cons_of_mem _ hq))

/-- Folding the reversed defaults zipped with the reversed keys over a dict
whose keys are distinct and exactly as long replaces every entry by the
corresponding (right-aligned) default. -/
theorem foldl_dict_right_align :
    ∀ (back : List (String × ParamDefault)) (ds : List Value),
      (back.map Prod.fst).Nodup → ds.length = back.length →
      (ds.reverse.zip ((back.map Prod.fst).reverse)).foldl
          (fun d p => dictInsert d p.2 (.val p.1)) back
        = (back.map Prod.fst).zip (ds.map ParamDefault.val) := by
  intro back
  induction back using List.reverseRecOn with
  | nil =>
    intro ds _ hlen
    have hds : ds = [] := List.length_eq_zero.mp (by simpa using hlen)
    subst hds
    simp
  | append_singleton back' last ih =>
    obtain ⟨k, x⟩ := last
    intro ds hnd hlen
    have hne : ds ≠ [] := by
      intro h
      subst h
      simp at hlen
    obtain ⟨ds', d, rfl⟩ : ∃ ds' d, ds = ds' ++ [d] :=
      ⟨ds.dropLast, ds.getLast hne, (List.dropLast_append_getLast hne).symm⟩
    have hlen' : ds'.length = back'.length := by
      simp only [List.length_append, List.length_singleton] at hlen
      omega
    have hkeys : (back' ++ [(k, x)]).map Prod.fst = back'.map Prod.fst ++ [k] := by
      simp
    rw [hkeys] at hnd
    have hnd' : (back'.map Prod.fst).Nodup := (List.nodup_append.mp hnd).1
    have hkfresh : k ∉ back'.map Prod.fst := by
      intro hmem
      exact (List.nodup_append.mp hnd).2.2 hmem (List.mem_singleton_self k)
    have hrev : (ds' ++ [d]).reverse.zip ((back' ++ [(k, x)]).map Prod.fst).reverse
        = (d, k) :: ds'.reverse.zip ((back'.map Prod.fst).reverse) := by
      rw [hkeys]
      simp [List.zip_cons_cons]
    rw [hrev]
    simp only [List.foldl_cons]
    have hstep : dictInsert (back' ++ [(k, x)]) k (.val d)
        = back' ++ [(k, ParamDefault.val d)] := by
      have hkmem : k ∈ (back' ++ [(k, x)]).map Prod.fst := by
        rw [hkeys]
        simp
      rw [dictInsert_mem _ _ _ hkmem, updateAssoc_append_right _ _ _ _ hkfresh]
      simp [updateAssoc]
    rw [hstep]
    rw [foldl_dict_pairs_left _ back' [(k, ParamDefault.val d)] ?side]
    case side =>
      intro p hp
      have := (List.of_mem_zip hp).2
      exact List.mem_reverse.mp this
    rw [ih ds' hnd' hlen', hkeys, List.map_append,
      List.zip_append (by simp [hlen'])]
    simp

/-- Keys of a constant-value pairing. -/
theorem map_fst_mk_pairs (c : ParamDefault) (l : List String) :
    (l.map fun n => (n, c)).map Prod.fst = l := by
  induction l with
  | nil => rfl
  | cons a t ih => simp [ih]

/-- `get_func_arguments` on a name list split as `T ++ D` with exactly as
many defaults as `D`: the `T` entries keep the sentinel and the `D` entries
receive the defaults pointwise. -/
theorem get_func_arguments_split (T D : List String) (defaults : List Value)
    (hnd : (T ++ D).Nodup) (hdl : D.length = defaults.length) :
    get_func_arguments (T ++ D) defaults
      = (T.map fun n => (n, ParamDefault.RequiresValueType))
        ++ D.zip (defaults.map ParamDefault.val) := by
  simp only [get_func_arguments]
  rw [foldl_dictInsert_fresh (T ++ D) [] hnd (by simp)]
  simp only [List.nil_append]
  have hkeys : ((T ++ D).map fun n => (n, ParamDefault.RequiresValueType)).map Prod.fst
      = T ++ D := map_fst_mk_pairs _ _
  rw [hkeys]
  rw [List.map_append]
  have hzip : defaults.reverse.zip (T ++ D).reverse = defaults.reverse.zip D.reverse := by
    rw [List.reverse_append]
    have h2 : defaults.reverse.length = D.reverse.length := by simp [hdl]
    have h3 := @List.zip_append Value String defaults.reverse ([] : List Value)
      D.reverse T.reverse h2
    simpa using h3
  rw [hzip]
  obtain ⟨hndT, hndD, hdisj⟩ := List.nodup_append.mp hnd
  rw [foldl_dict_pairs_right _ _ _ ?notleft ?inright]
  case notleft =>
    intro p hp
    obtain ⟨a, b⟩ := p
    have hb : b ∈ D := List.mem_reverse.mp (List.of_mem_zip hp).2
    simp only [List.map_map]
    intro hmem
    have hbT : b ∈ T := by simpa using hmem
    exact hdisj hbT hb
  case inright =>
    intro p hp
    obtain ⟨a, b⟩ := p
    have hb : b ∈ D := List.mem_reverse.mp (List.of_mem_zip hp).2
    simpa using hb
  congr 1
  have hkD : ((D.map fun n => (n, ParamDefault.RequiresValueType)).map Prod.fst) = D :=
    map_fst_mk_pairs _ _
  have halign := foldl_dict_right_align
    (D.map fun n => (n, ParamDefault.RequiresValueType)) defaults
    (by rw [hkD]; exact hndD) (by rw [List.length_map]; exact hdl.symm)
  rw [hkD] at halign
  exact halign

/-- **C6.** `get_func_arguments` yields the parameters in declaration order,
assigns the supplied defaults by right-aligning them against the parameter
names, and stores the `RequiresValueType` sentinel (the required marker)
exactly for the parameters the defaults do not reach. -/
theorem get_func_arguments_right_aligns
    (names : List String) (defaults : List Value)
    (hnd : names.Nodup) (hlen : defaults.length ≤ names.length) :
    get_func_arguments names defaults
      = ((names.take (names.length - defaults.length)).map
          fun n => (n, ParamDefault.RequiresValueType))
        ++ (names.drop (names.length - defaults.length)).zip
            (defaults.map ParamDefault.val)
    ∧ (get_func_arguments names defaults).map Prod.fst = names := by
  have hsplit := List.take_append_drop (names.length - defaults.length) names
  have hdl : (names.drop (names.length - defaults.length)).length = defaults.length := by
    rw [List.length_drop]
    omega
  have h1 : get_func_arguments names defaults
      = ((names.take (names.length - defaults.length)).map
          fun n => (n, ParamDefault.RequiresValueType))
        ++ (names.drop (names.length - defaults.length)).zip
            (defaults.map ParamDefault.val) := by
    conv_lhs => rw [← hsplit]
    exact get_func_arguments_split _ _ defaults (by rw [hsplit]; exact hnd) hdl
  refine ⟨h1, ?_⟩
  rw [h1, List.map_append, List.map_fst_zip _ _ (by simp [hdl]),
    map_fst_mk_pairs]
  exact hsplit

/-- Closed instance of `get_func_arguments_right_aligns`: for
`f(a, b=1, c=2)` the two defaults right-align onto `b` and `c` and `a` keeps
the required sentinel. -/
theorem get_func_arguments_right_aligns_witness :
    (["a", "b", "c"] : List String).Nodup
    ∧ ([Value.VInt 1, Value.VInt 2] : List Value).length
        ≤ (["a", "b", "c"] : List String).length
    ∧ get_func_arguments ["a", "b", "c"] [.VInt 1, .VInt 2]
        = ((["a", "b", "c"] : List String).take
              ((["a", "b", "c"] : List String).length
                - ([Value.VInt 1, Value.VInt 2] : List Value).length)).map
            (fun n => (n, ParamDefault.RequiresValueType))
          ++ ((["a", "b", "c"] : List String).drop
              ((["a", "b", "c"] : List String).length
                - ([Value.VInt 1, Value.VInt 2] : List Value).length)).zip
              (([Value.VInt 1, Value.VInt 2] : List Value).map ParamDefault.val) :=
  ⟨by decide, by decide,
   (get_func_arguments_right_aligns ["a", "b", "c"] [.VInt 1, .VInt 2]
     (by decide) (by decide)).1⟩

/-- A key that is not present looks up to `none`. -/
theorem dictGet_eq_none_of_not_mem {α : Type} {p : String} {l : List (String × α)}
    (h : p ∉ l.map Prod.fst) : dictGet p l = none := by
  induction l with
  | nil => rfl
  | cons q rest ih =>
    obtain ⟨k', v'⟩ := q
    simp only [List.map_cons, List.mem_cons, not_or] at h
    have hk : ¬k' = p := fun he => h.1 he.symm
    simp [dictGet, hk, ih h.2]

/-- Lookup distributes over append, preferring the left part. -/
theorem dictGet_append {α : Type} (p : String) (l1 l2 : List (String × α)) :
    dictGet p (l1 ++ l2)
      = match dictGet p l1 with
        | some v => some v
        | none => dictGet p l2 := by
  induction l1 with
  | nil => simp [dictGet]
  | cons q rest ih =>
    obtain ⟨k', v'⟩ := q
    by_cases h : k' = p <;> simp [dictGet, h, ih]

/-- Lookup after an in-place update of a present key. -/
theorem dictGet_updateAssoc_mem {α : Type} {k : String} {l : List (String × α)}
    (v : α) (p : String) (h : k ∈ l.map Prod.fst) :
    dictGet p (updateAssoc l k v) = if k = p then some v else dictGet p l := by
  induction l with
  | nil => simp at h
  | cons q rest ih =>
    obtain ⟨k', v'⟩ := q
    by_cases hk : k' = k
    · subst hk
      simp only [updateAssoc, if_pos rfl]
      by_cases hp : k' = p <;> simp [dictGet, hp]
    · have hmem : k ∈ rest.map Prod.fst := by
        simp only [List.map_cons, List.mem_cons] at h
        rcases h with h | h
        · exact absurd h.symm hk
        · exact h
      simp only [updateAssoc, if_neg hk]
      by_cases hp : k' = p
      · subst hp
        have : ¬(k = k') := fun he => hk he.symm
        simp [dictGet, this]
      · simp [dictGet, hp, ih hmem]

/-- Lookup after a dict insertion. -/
theorem dictGet_dictInsert {α : Type} (l : List (String × α)) (k : String) (v : α)
    (p : String) :
    dictGet p (dictInsert l k v) = if k = p then some v else dictGet p l := by
  by_cases hm : k ∈ l.map Prod.fst
  · rw [dictInsert_mem _ _ _ hm, dictGet_updateAssoc_mem v p hm]
  · rw [dictInsert_fresh _ _ _ hm, dictGet_append]
    by_cases hp : k = p
    · subst hp
      rw [dictGet_eq_none_of_not_mem hm]
      simp [dictGet]
    · cases hg : dictGet p l <;> simp [dictGet, hp, hg]

/-- `str.split` never returns an empty list of pieces. -/
theorem splitOnChar_ne_nil (sep : Char) (cs : List Char) : splitOnChar sep cs ≠ [] := by
  cases cs with
  | nil => simp [splitOnChar]
  | cons c rest =>
    simp only [splitOnChar]
    cases splitOnChar sep rest with
    | nil => simp
    | cons part parts =>
      by_cases h : c = sep <;> simp [h]


/-- `docLineMalformed` is decidable (it is a combination of decidable
equalities). -/
instance (cs : List Char) : Decidable (docLineMalformed cs) := by
  unfold docLineMalformed
  infer_instance

/-- A doc line parses to `none` exactly when it is malformed. -/
theorem parseDocLine_none_iff (cs : List Char) :
    parseDocLine cs = none ↔ docLineMalformed cs := by
  unfold parseDocLine docLineMalformed
  cases hc : containsSeq ":param ".toList cs
  · simp
  · simp only [Bool.not_true, Bool.false_eq_true, if_false]
    cases hp : splitOnChar ':' (pyLstrip ":param ".toList cs) with
    | nil => exact absurd hp (splitOnChar_ne_nil _ _)
    | cons a t =>
      cases t with
      | nil => simp
      | cons b t2 =>
        by_cases hb : b = []
        · subst hb
          simp
        · simp [hb]

/-- **C8.** Doc-comment parsing is total and best-effort: a line is skipped
(parses to `none`) exactly when it is malformed in one of the three ways the
loop guards against (no `":param "` marker, a single piece after splitting
on `":"`, or a blank description), and a parameter no line successfully
documents ends up with no tooltip entry and no declared-type entry. -/
theorem doc_parsing_total_and_best_effort :
    (∀ cs : List Char, parseDocLine cs = none ↔ docLineMalformed cs)
    ∧ (∀ (lines : List String) (p : String),
        (∀ l ∈ lines, ∀ r : List Char × List Char × Option (List Char),
          parseDocLine l.toList = some r → String.mk r.1 ≠ p) →
        dictGet p (paramDocParse lines).1 = none
        ∧ dictGet p (paramDocParse lines).2 = none) := by
  constructor
  · exact parseDocLine_none_iff
  · have main : ∀ (lines : List String) (p : String)
        (acc : List (String × String) × List (String × String)),
        (∀ l ∈ lines, ∀ r : List Char × List Char × Option (List Char),
          parseDocLine l.toList = some r → String.mk r.1 ≠ p) →
        dictGet p acc.1 = none → dictGet p acc.2 = none →
        dictGet p (lines.foldl paramDocStep acc).1 = none
        ∧ dictGet p (lines.foldl paramDocStep acc).2 = none := by
      intro lines
      induction lines with
      | nil => exact fun p acc _ h1 h2 => ⟨h1, h2⟩
      | cons l rest ih =>
        intro p acc hskip h1 h2
        simp only [List.foldl_cons]
        have hstep : dictGet p (paramDocStep acc l).1 = none
            ∧ dictGet p (paramDocStep acc l).2 = none := by
          unfold paramDocStep
          cases hp : parseDocLine l.toList with
          | none => exact ⟨h1, h2⟩
          | some r =>
            obtain ⟨name, desc, tag⟩ := r
            have hne : ¬(String.mk name = p) :=
              hskip l (List.mem_cons_self _ _) (name, desc, tag) hp
            constructor
            · simpa [dictGet_dictInsert, hne] using h1
            · cases tag with
              | none => exact h2
              | some tg => simpa [dictGet_dictInsert, hne] using h2
        exact ih p (paramDocStep acc l)
          (fun l2 hl2 => hskip l2 (List.mem_cons_of_mem _ hl2))
          hstep.1 hstep.2
    intro lines p hskip
    exact main lines p ([], []) hskip rfl rfl

/-- Closed instance of `doc_parsing_total_and_best_effort`: the truncated
line `":param x"` is skipped, and a parameter `y` no line documents gets
neither a tooltip nor a type entry. -/
theorem doc_parsing_total_and_best_effort_witness :
    parseDocLine (":param x").toList = none
    ∧ (dictGet "y" (paramDocParse [":param x: doc"]).1 = none
       ∧ dictGet "y" (paramDocParse [":param x: doc"]).2 = none) :=
  ⟨(doc_parsing_total_and_best_effort.1 (":param x").toList).mpr (by decide),
   doc_parsing_total_and_best_effort.2 [":param x: doc"] "y"
     (by
       intro l hl r hr
       simp only [List.mem_singleton] at hl
       subst hl
       rw [show parseDocLine (":param x: doc").toList
           = some (['x'], [' ', 'd', 'o', 'c'], none) from by decide] at hr
       cases hr
       decide)⟩

/-- `set_argument_value` never changes the tooltip. -/
theorem set_argument_value_tooltip {w w' : Widget} {v : Value}
    (h : w.set_argument_value v = some w') : w'.tooltip = w.tooltip := by
  unfold Widget.set_argument_value Widget.mark_as_modified at h
  split at h <;> (try split at h) <;>
    simp only [Option.some.injEq, reduceCtorEq] at h <;>
    (try subst h) <;> (try split) <;> rfl

/-- The tooltip of a widget produced by `genParam` is the parameter's
tooltip entry, defaulting to `"parameter un-documented"`. -/
theorem genParam_tooltip {cfg : DialogConfig}
    {tips dt : List (String × String)} {p : String × ParamDefault} {w : Widget}
    (h : genParam cfg tips dt p = some (some w)) :
    w.tooltip = (dictGet p.1 tips).getD "parameter un-documented" := by
  simp only [genParam] at h
  cases hres : resolveWidgetCls cfg.input_arg_widget_dict dt p.1
      (effectiveDefault cfg.default_arg_type p.2).typeName <;> simp only [hres] at h
  · exact absurd h (by simp)
  case some cls =>
    cases hb : buildWidget cls p.1 (effectiveDefault cfg.default_arg_type p.2)
        p.2.isRequired <;> simp only [hb] at h
    · exact absurd h (by simp)
    case some w0 =>
      cases hseed : dictGet p.1 cfg.default_values <;> simp only [hseed] at h
      · simp only [Option.some.injEq] at h
        rw [← h]
      case some seed =>
        simp only [Option.map_eq_some', Option.some.injEq] at h
        obtain ⟨w1, hset, hw1⟩ := h
        subst hw1
        rw [set_argument_value_tooltip hset]

/-- Every widget in the generated list is produced by `genParam` on one of
the parameters. -/
theorem genWidgets_mem :
    ∀ (params : List (String × ParamDefault)) (cfg : DialogConfig)
      (tips dt : List (String × String)) (ws : List Widget) (w : Widget),
      genWidgets cfg tips dt params = some ws → w ∈ ws →
      ∃ p, p ∈ params ∧ genParam cfg tips dt p = some (some w) := by
  intro params
  induction params with
  | nil =>
    intro cfg tips dt ws w hgen hw
    simp only [genWidgets, mapOption, Option.map_some', Option.some.injEq] at hgen
    subst hgen
    simp at hw
  | cons p rest ih =>
    intro cfg tips dt ws w hgen hw
    simp only [genWidgets, mapOption] at hgen
    cases hp : genParam cfg tips dt p <;> rw [hp] at hgen
    · simp at hgen
    case some o =>
      cases hrest : mapOption (genParam cfg tips dt) rest <;> rw [hrest] at hgen
      · simp at hgen
      case some os =>
        simp only [Option.map_some', Option.some.injEq] at hgen
        have hrest' : genWidgets cfg tips dt rest = some (os.filterMap id) := by
          simp [genWidgets, hrest]
        cases o with
        | none =>
          rw [← hgen] at hw
          have hfm0 : (none :: os).filterMap (id : Option Widget → Option Widget)
              = os.filterMap id := rfl
          rw [hfm0] at hw
          obtain ⟨q, hq, hgq⟩ := ih cfg tips dt (os.filterMap id) w hrest' hw
          exact ⟨q, List.mem_cons_of_mem _ hq, hgq⟩
        | some w0 =>
          rw [← hgen] at hw
          have hfm : (some w0 :: os).filterMap id = w0 :: os.filterMap id := rfl
          rw [hfm] at hw
          rcases List.mem_cons.mp hw with hw | hw
          · subst hw
            exact ⟨p, List.mem_cons_self _ _, hp⟩
          · obtain ⟨q, hq, hgq⟩ := ih cfg tips dt (os.filterMap id) w hrest' hw
            exact ⟨q, List.mem_cons_of_mem _ hq, hgq⟩

/-- **C10.** A doc line whose description part (between the first and second
colon after the lstrip) is empty is skipped, a skipped line contributes
nothing to the tooltip and type dictionaries, and every generated widget
whose parameter has no tooltip entry receives the fixed tooltip
`"parameter un-documented"`. -/
theorem empty_description_skipped_and_default_tooltip :
    (∀ (cs pre : List Char) (rest : List (List Char)),
        splitOnChar ':' (pyLstrip ":param ".toList cs) = pre :: [] :: rest →
        parseDocLine cs = none)
    ∧ (∀ (acc : List (String × String) × List (String × String)) (line : String),
        parseDocLine line.toList = none → paramDocStep acc line = acc)
    ∧ (∀ (cfg : DialogConfig) (tips dt : List (String × String))
        (params : List (String × ParamDefault)) (ws : List Widget) (w : Widget),
        genWidgets cfg tips dt params = some ws → w ∈ ws →
        dictGet w.arg_name tips = none → w.tooltip = "parameter un-documented") := by
  refine ⟨?_, ?_, ?_⟩
  · intro cs pre rest hsplit
    refine (parseDocLine_none_iff cs).mpr ?_
    unfold docLineMalformed
    rw [hsplit]
    simp
  · intro acc line hnone
    unfold paramDocStep
    rw [hnone]
  · intro cfg tips dt params ws w hgen hw htip
    obtain ⟨p, _, hgp⟩ := genWidgets_mem params cfg tips dt ws w hgen hw
    have hname : w.arg_name = p.1 := genParam_arg_name hgp
    rw [genParam_tooltip hgp, ← hname, htip]
    rfl

/-- Closed instance of `empty_description_skipped_and_default_tooltip`: the
line `":param x:"` (blank description) is skipped, and the widget of an
undocumented parameter carries the fixed fallback tooltip. -/
theorem empty_description_skipped_and_default_tooltip_witness :
    parseDocLine (":param x:").toList = none
    ∧ (⟨"a", .BoolCheckBoxWidget, .VBool true, .VBool true, false, false,
        "parameter un-documented"⟩ : Widget).tooltip = "parameter un-documented" :=
  ⟨empty_description_skipped_and_default_tooltip.1 (":param x:").toList ['x'] []
     (by decide),
   empty_description_skipped_and_default_tooltip.2.2 ⟨[], [], some (.VStr "")⟩ [] []
     [("a", .val (.VBool true))]
     [⟨"a", .BoolCheckBoxWidget, .VBool true, .VBool true, false, false,
       "parameter un-documented"⟩]
     ⟨"a", .BoolCheckBoxWidget, .VBool true, .VBool true, false, false,
       "parameter un-documented"⟩
     (by decide) (by decide) (by decide)⟩

/-- Decimal digits of `n` (most significant first), fuel-based so that it
reduces by kernel computation; with fuel at least `n` it is Python's
`str(n)` for a non-negative integer. -/
def natCharsAux : Nat → Nat → List Char
  | 0, n => [Nat.digitChar n]
  | fuel + 1, n =>
    if n < 10 then [Nat.digitChar n]
    else natCharsAux fuel (n / 10) ++ [Nat.digitChar (n % 10)]

/-- Python `str(n)` for a natural number. -/
def natChars (n : Nat) : List Char :=
  natCharsAux n n

/-- Python `str(n)` for an integer. -/
def intChars (n : Int) : List Char :=
  if n < 0 then '-' :: natChars (-n).toNat else natChars n.toNat

/-- Python `str(v)` (the `"{}".format(val)` conversion of the preview) for
the modelled values.  A float is rendered with its trailing `.0`; the
rendering of a custom instance is opaque and never reaches the preview
because no widget holds such a value. -/
def pyReprChars : Value → List Char
  | .VBool true => "True".toList
  | .VBool false => "False".toList
  | .VInt n => intChars n
  | .VFloat n => intChars n ++ ['.', '0']
  | .VStr s => s.toList
  | .VNone => "None".toList
  | .VCustom t => '<' :: t.toList ++ ['>']

/-- The quoting rule of `preview_func_call` for one positional argument:
`"'{}'".format(v)` when `isinstance(v, str_types)`, else `"{}".format(v)`. -/
def renderPosFrag (v : Value) : List Char :=
  if v.isStr then quoteChar :: pyReprChars v ++ [quoteChar] else pyReprChars v

/-- The rendering of one keyword argument: `"{}='{}'"` for strings, else
`"{}={}"`. -/
def renderKwFrag (p : String × Value) : List Char :=
  p.1.toList ++ '=' :: renderPosFrag p.2

/-- The per-argument text fragments of the preview, in the order the
preview emits them. -/
def previewFragments (ws : List Widget) : List (List Char) :=
  let r := get_modified_values ws
  r.1.map renderPosFrag ++ r.2.map renderKwFrag

/-- `ArgumentDialog.preview_func_call`, character by character: the header
`"{}(".format(func_name)`, the argument loop (a separator after an argument
iff it is not the last or keyword arguments follow), the keyword loop
(a separator after each keyword argument but the last), and the closing
parenthesis on its own indented line when there is more than one argument
in total. -/
def previewChars (func_name : String) (ws : List Widget) : List Char :=
  let r := get_modified_values ws
  let header := func_name.toList ++ ['(']
  let empty_spaces := List.replicate header.length ' '
  let sep := ',' :: '\n' :: empty_spaces
  let arg_length := r.1.length
  let kwarg_length := r.2.length
  let argPart :=
    (((r.1.map renderPosFrag).enum).map fun q =>
      q.2 ++ if (decide (arg_length > 1) && decide (q.1 ≠ arg_length - 1))
               || decide (kwarg_length > 0) then sep else []).flatten
  let kwargPart :=
    (((r.2.map renderKwFrag).enum).map fun q =>
      q.2 ++ if decide (kwarg_length > 1) && decide (q.1 ≠ kwarg_length - 1)
             then sep else []).flatten
  header ++ argPart ++ kwargPart
    ++ (if arg_length + kwarg_length > 1 then '\n' :: empty_spaces ++ [')'] else [')'])

/-- `preview_func_call` as the string written into the preview text box. -/
def preview_func_call (func_name : String) (ws : List Widget) : String :=
  String.mk (previewChars func_name ws)

/-- Fragments joined by a separator; `tail` appends one more separator
after the last fragment. -/
def sepConcat (sep : List Char) (tail : Bool) : List (List Char) → List Char
  | [] => []
  | [f] => f ++ (if tail then sep else [])
  | f :: g :: rest => f ++ sep ++ sepConcat sep tail (g :: rest)

/-- The preview string in assembled form: header, the fragments of
`previewFragments` joined by the separator, and the closing parenthesis. -/
def previewAssembled (func_name : String) (ws : List Widget) : List Char :=
  let header := func_name.toList ++ ['(']
  let empty_spaces := List.replicate header.length ' '
  let sep := ',' :: '\n' :: empty_spaces
  let frags := previewFragments ws
  header ++ sepConcat sep false frags
    ++ (if frags.length > 1 then '\n' :: empty_spaces ++ [')'] else [')'])

/-- Reading a decimal digit string back (the reversal of `natChars`). -/
def parseDigits (cs : List Char) : Nat :=
  cs.foldl (fun a c => 10 * a + (c.toNat - 48)) 0

/-- Reversal of the non-negative decimal rendering: every character must be
a digit. -/
def parseNatChars (cs : List Char) : Option Nat :=
  if cs.isEmpty then none
  else if cs.all Char.isDigit then some (parseDigits cs) else none

/-- Reversal of Python's `str` on integers. -/
def parseIntChars : List Char → Option Int
  | [] => none
  | c :: rest =>
    if c = '-' then (parseNatChars rest).map fun m => -(Int.ofNat m)
    else (parseNatChars (c :: rest)).map Int.ofNat

/-- Reversal of the quoting rule on one rendered value: quoted text is a
string, `True` / `False` / `None` are the singletons, a decimal with a
trailing `.0` is a float, and a bare decimal is an integer. -/
def unrenderChars : List Char → Option Value
  | [] => none
  | c :: rest =>
    if c = quoteChar then
      match rest.reverse with
      | [] => none
      | q :: midRev =>
        if q = quoteChar then some (.VStr (String.mk midRev.reverse)) else none
    else if c :: rest = "True".toList then some (.VBool true)
    else if c :: rest = "False".toList then some (.VBool false)
    else if c :: rest = "None".toList then some .VNone
    else
      match (c :: rest).reverse with
      | c0 :: c1 :: restRev =>
        if c0 = '0' ∧ c1 = '.' then (parseIntChars restRev.reverse).map Value.VFloat
        else (parseIntChars (c :: rest)).map Value.VInt
      | _ => (parseIntChars (c :: rest)).map Value.VInt

/-- Reversal of the quoting rule on one argument fragment: a quoted
fragment is a positional string, a fragment containing `=` is a keyword
argument split at its first `=` (keyword names are Python identifiers and
contain no `=`), anything else is a bare positional value. -/
def parseFragmentChars (cs : List Char) : Option (Value ⊕ (String × Value)) :=
  match cs with
  | [] => none
  | c :: rest =>
    if c = quoteChar then (unrenderChars (c :: rest)).map Sum.inl
    else if (c :: rest).contains '=' then
      (unrenderChars (((c :: rest).dropWhile fun d => d ≠ '=').drop 1)).map
        fun v => Sum.inr (String.mk ((c :: rest).takeWhile fun d => d ≠ '='), v)
    else (unrenderChars (c :: rest)).map Sum.inl

/-- Splitting a parsed fragment list back into the positional prefix and
the keyword suffix (failing if a positional fragment follows a keyword
fragment, which the preview never emits). -/
def splitSum : List (Value ⊕ (String × Value)) → Option (List Value × List (String × Value))
  | [] => some ([], [])
  | .inl v :: rest =>
    match splitSum rest with
    | some (as, ks) => some (v :: as, ks)
    | none => none
  | .inr p :: rest =>
    match splitSum rest with
    | some ([], ks) => some ([], p :: ks)
    | _ => none

/-- Reversal of the quoting rule on the whole rendered argument list. -/
def parseFragments (fs : List (List Char)) : Option (List Value × List (String × Value)) :=
  (mapOption parseFragmentChars fs).bind splitSum

/-- The values a widget can hold (everything except an opaque custom
instance, which no widget kind displays). -/
def Value.isRenderable : Value → Bool
  | .VCustom _ => false
  | _ => true

/-- A Python identifier: a letter or underscore followed by letters,
digits and underscores (the shape of every keyword-argument name). -/
def isPyIdentChars : List Char → Bool
  | [] => false
  | c :: rest => (c.isAlpha || c = '_') && rest.all fun d => d.isAlphanum || d = '_'

/-- Digit characters are digits. -/
theorem digitChar_isDigit {d : Nat} (h : d < 10) : (Nat.digitChar d).isDigit = true := by
  interval_cases d <;> decide

/-- Reading a digit character back. -/
theorem digitChar_toNat {d : Nat} (h : d < 10) : (Nat.digitChar d).toNat - 48 = d := by
  interval_cases d <;> decide

/-- `parseDigits` peels the last digit. -/
theorem parseDigits_append (cs : List Char) (c : Char) :
    parseDigits (cs ++ [c]) = 10 * parseDigits cs + (c.toNat - 48) := by
  unfold parseDigits
  rw [List.foldl_append]
  rfl

/-- With enough fuel, `natCharsAux` produces a non-empty all-digit string
that `parseDigits` reads back to the input. -/
theorem natCharsAux_spec :
    ∀ (fuel n : Nat), n ≤ fuel →
      natCharsAux fuel n ≠ []
      ∧ (∀ c ∈ natCharsAux fuel n, c.isDigit = true)
      ∧ parseDigits (natCharsAux fuel n) = n := by
  intro fuel
  induction fuel with
  | zero =>
    intro n hn
    have h0 : n = 0 := by omega
    subst h0
    exact ⟨by decide, by decide, by decide⟩
  | succ fuel ih =>
    intro n hn
    by_cases h10 : n < 10
    · simp only [natCharsAux, if_pos h10]
      refine ⟨by simp, ?_, ?_⟩
      · intro c hc
        rw [List.mem_singleton.mp hc]
        exact digitChar_isDigit h10
      · show parseDigits ([] ++ [Nat.digitChar n]) = n
        rw [parseDigits_append, digitChar_toNat h10]
        simp [parseDigits]
    · simp only [natCharsAux, if_neg h10]
      have hdiv : n / 10 ≤ fuel := by
        have := Nat.div_lt_self (by omega : 0 < n) (by omega : 1 < 10)
        omega
      have hmod : n % 10 < 10 := Nat.mod_lt _ (by omega)
      obtain ⟨hne, hdig, hval⟩ := ih (n / 10) hdiv
      refine ⟨by simp, ?_, ?_⟩
      · intro c hc
        rcases List.mem_append.mp hc with hc | hc
        · exact hdig c hc
        · rw [List.mem_singleton.mp hc]
          exact digitChar_isDigit hmod
      · rw [parseDigits_append, hval, digitChar_toNat hmod]
        omega

/-- `natChars` is non-empty, all digits, and reads back. -/
theorem natChars_spec (n : Nat) :
    natChars n ≠ []
    ∧ (∀ c ∈ natChars n, c.isDigit = true)
    ∧ parseDigits (natChars n) = n :=
  natCharsAux_spec n n le_rfl

/-- `parseNatChars` inverts `natChars`. -/
theorem parseNatChars_natChars (n : Nat) : parseNatChars (natChars n) = some n := by
  obtain ⟨hne, hdig, hval⟩ := natChars_spec n
  unfold parseNatChars
  rw [if_neg (by simpa using hne), if_pos (List.all_eq_true.mpr hdig), hval]

/-- Every character of `str(n)` for an integer is a digit or the minus
sign. -/
theorem intChars_mem (n : Int) : ∀ c ∈ intChars n, c.isDigit = true ∨ c = '-' := by
  intro c hc
  unfold intChars at hc
  split at hc
  · rcases List.mem_cons.mp hc with hc | hc
    · exact Or.inr hc
    · exact Or.inl ((natChars_spec _).2.1 c hc)
  · exact Or.inl ((natChars_spec _).2.1 c hc)

/-- A character that is neither a digit nor `-` does not occur in
`str(n)`. -/
theorem not_mem_intChars {c : Char} (h1 : c.isDigit = false) (h2 : c ≠ '-')
    (n : Int) : c ∉ intChars n := by
  intro hmem
  rcases intChars_mem n c hmem with h | h
  · rw [h1] at h
    cases h
  · exact h2 h

/-- `str(n)` is never empty. -/
theorem intChars_ne_nil (n : Int) : intChars n ≠ [] := by
  unfold intChars
  split
  · simp
  · exact (natChars_spec _).1

/-- `parseIntChars` inverts `intChars`. -/
theorem parseIntChars_intChars (n : Int) : parseIntChars (intChars n) = some n := by
  unfold intChars
  split
  case isTrue hneg =>
    show parseIntChars ('-' :: natChars (-n).toNat) = some n
    have hred : parseIntChars ('-' :: natChars (-n).toNat)
        = (parseNatChars (natChars (-n).toNat)).map (fun m => -(Int.ofNat m)) := rfl
    rw [hred, parseNatChars_natChars]
    simp only [Option.map_some', Option.some.injEq]
    rw [show Int.ofNat (-n).toNat = -n from Int.toNat_of_nonneg (by omega)]
    omega
  case isFalse hpos =>
    have hne := (natChars_spec n.toNat).1
    obtain ⟨c, t, hct⟩ : ∃ c t, natChars n.toNat = c :: t := by
      cases h : natChars n.toNat with
      | nil => exact absurd h hne
      | cons c t => exact ⟨c, t, rfl⟩
    rw [hct]
    have hcd : c.isDigit = true :=
      (natChars_spec n.toNat).2.1 c (by rw [hct]; exact List.mem_cons_self _ _)
    have hcne : ¬(c = '-') := by
      intro h
      rw [h] at hcd
      cases hcd
    simp only [parseIntChars, if_neg hcne]
    rw [← hct, parseNatChars_natChars]
    simp only [Option.map_some', Option.some.injEq]
    exact Int.toNat_of_nonneg (by omega)

/-- Rebuilding a string from its characters. -/
theorem string_mk_toList (s : String) : String.mk s.toList = s := rfl

/-- A digit-or-minus first character rules the `True` / `False` / `None`
readings out. -/
theorem num_head_not_keyword {c : Char} (hc : c.isDigit = true ∨ c = '-')
    (t : List Char) :
    ¬(c :: t = "True".toList) ∧ ¬(c :: t = "False".toList)
    ∧ ¬(c :: t = "None".toList) := by
  refine ⟨?_, ?_, ?_⟩ <;>
    · intro he
      simp only [show "True".toList = ['T', 'r', 'u', 'e'] from rfl,
        show "False".toList = ['F', 'a', 'l', 's', 'e'] from rfl,
        show "None".toList = ['N', 'o', 'n', 'e'] from rfl,
        List.cons.injEq] at he
      obtain ⟨h1, _⟩ := he
      subst h1
      rcases hc with h | h <;> exact absurd h (by decide)

/-- `unrenderChars` on a fragment that is not quoted and not one of the
keyword constants reduces to the numeric reading. -/
theorem unrenderChars_num (c : Char) (t : List Char)
    (hcq : ¬(c = quoteChar)) (hT : ¬(c :: t = "True".toList))
    (hF : ¬(c :: t = "False".toList)) (hN : ¬(c :: t = "None".toList)) :
    unrenderChars (c :: t)
      = match (c :: t).reverse with
        | c0 :: c1 :: restRev =>
          if c0 = '0' ∧ c1 = '.' then (parseIntChars restRev.reverse).map Value.VFloat
          else (parseIntChars (c :: t)).map Value.VInt
        | _ => (parseIntChars (c :: t)).map Value.VInt := by
  simp only [unrenderChars, if_neg hcq, if_neg hT, if_neg hF, if_neg hN]

/-- Reversing the quoting rule on one rendered value recovers the value. -/
theorem unrenderChars_renderPosFrag {v : Value} (h : v.isRenderable = true) :
    unrenderChars (renderPosFrag v) = some v := by
  cases v with
  | VBool b => cases b <;> decide
  | VNone => decide
  | VCustom t => simp [Value.isRenderable] at h
  | VStr s =>
    have hrev : (s.toList ++ [quoteChar]).reverse = quoteChar :: s.toList.reverse := by
      simp
    show unrenderChars (quoteChar :: (s.toList ++ [quoteChar])) = some (.VStr s)
    simp only [unrenderChars, if_pos rfl, hrev]
    simp [string_mk_toList]
  | VInt n =>
    show unrenderChars (intChars n) = some (.VInt n)
    obtain ⟨c, t, hct⟩ : ∃ c t, intChars n = c :: t := by
      cases h2 : intChars n with
      | nil => exact absurd h2 (intChars_ne_nil n)
      | cons c t => exact ⟨c, t, rfl⟩
    have hcdm : c.isDigit = true ∨ c = '-' :=
      intChars_mem n c (by rw [hct]; exact List.mem_cons_self _ _)
    have hcq : ¬(c = quoteChar) := by
      intro he
      subst he
      rcases hcdm with h2 | h2 <;> exact absurd h2 (by decide)
    obtain ⟨hT, hF, hN⟩ := num_head_not_keyword hcdm t
    rw [hct, unrenderChars_num c t hcq hT hF hN]
    cases hr : (c :: t).reverse with
    | nil => simp at hr
    | cons c0 r1 =>
      cases r1 with
      | nil =>
        show (parseIntChars (c :: t)).map Value.VInt = some (.VInt n)
        rw [← hct, parseIntChars_intChars]
        rfl
      | cons c1 restRev =>
        have hc1mem : c1 ∈ intChars n := by
          have hmem : c1 ∈ (c :: t).reverse := by
            rw [hr]
            exact List.mem_cons_of_mem _ (List.mem_cons_self _ _)
          rw [hct]
          exact List.mem_reverse.mp hmem
        have hnotdot : ¬(c0 = '0' ∧ c1 = '.') := by
          rintro ⟨h0, h1⟩
          subst h1
          rcases intChars_mem n '.' hc1mem with h2 | h2 <;> exact absurd h2 (by decide)
        show (if c0 = '0' ∧ c1 = '.' then (parseIntChars restRev.reverse).map Value.VFloat
              else (parseIntChars (c :: t)).map Value.VInt) = some (.VInt n)
        rw [if_neg hnotdot, ← hct, parseIntChars_intChars]
        rfl
  | VFloat n =>
    show unrenderChars (intChars n ++ ['.', '0']) = some (.VFloat n)
    obtain ⟨c, t, hct⟩ : ∃ c t, intChars n = c :: t := by
      cases h2 : intChars n with
      | nil => exact absurd h2 (intChars_ne_nil n)
      | cons c t => exact ⟨c, t, rfl⟩
    have hcdm : c.isDigit = true ∨ c = '-' :=
      intChars_mem n c (by rw [hct]; exact List.mem_cons_self _ _)
    have hcq : ¬(c = quoteChar) := by
      intro he
      subst he
      rcases hcdm with h2 | h2 <;> exact absurd h2 (by decide)
    obtain ⟨hT, hF, hN⟩ := num_head_not_keyword hcdm (t ++ ['.', '0'])
    have hfrag : intChars n ++ ['.', '0'] = c :: (t ++ ['.', '0']) := by
      rw [hct]
      rfl
    rw [hfrag, unrenderChars_num c (t ++ ['.', '0']) hcq hT hF hN]
    have hrev : (c :: (t ++ ['.', '0'])).reverse = '0' :: '.' :: (c :: t).reverse := by
      have : c :: (t ++ ['.', '0']) = (c :: t) ++ ['.', '0'] := by rfl
      rw [this, List.reverse_append]
      rfl
    rw [hrev]
    show (if ('0' : Char) = '0' ∧ ('.' : Char) = '.'
          then (parseIntChars (c :: t).reverse.reverse).map Value.VFloat
          else (parseIntChars (c :: (t ++ ['.', '0']))).map Value.VInt) = some (.VFloat n)
    rw [if_pos ⟨rfl, rfl⟩, List.reverse_reverse, ← hct, parseIntChars_intChars]
    rfl

/-- `List.contains` agrees with membership for characters. -/
theorem charList_contains_iff (l : List Char) (c : Char) :
    l.contains c = true ↔ c ∈ l := by
  induction l with
  | nil => simp
  | cons a t ih => simp [List.contains_cons, ih]

/-- `takeWhile` / `dropWhile` split an append at the first failing
element. -/
theorem takeWhile_dropWhile_append {p : Char → Bool} :
    ∀ (l1 : List Char) (d : Char) (l2 : List Char),
      (∀ x ∈ l1, p x = true) → p d = false →
      (l1 ++ d :: l2).takeWhile p = l1 ∧ (l1 ++ d :: l2).dropWhile p = d :: l2 := by
  intro l1
  induction l1 with
  | nil =>
    intro d l2 _ hd
    simp [List.takeWhile_cons, List.dropWhile_cons, hd]
  | cons a l1 ih =>
    intro d l2 hall hd
    have ha := hall a (List.mem_cons_self _ _)
    obtain ⟨ht, hdr⟩ := ih d l2 (fun x hx => hall x (List.mem_cons_of_mem _ hx)) hd
    simp [List.takeWhile_cons, List.dropWhile_cons, ha, ht, hdr]

/-- Letters are not the `=` or quote characters. -/
theorem alpha_char_ne {x : Char} (h : x.isAlpha = true) :
    x ≠ '=' ∧ x ≠ quoteChar := by
  constructor <;> intro he <;> subst he <;> exact absurd h (by decide)

/-- Alphanumeric characters are not `=`. -/
theorem alnum_char_ne {x : Char} (h : x.isAlphanum = true) : x ≠ '=' := by
  intro he
  subst he
  exact absurd h (by decide)

/-- `=` does not occur in the rendering of a non-string widget value. -/
theorem eq_not_mem_renderPosFrag {v : Value} (hv : v.isRenderable = true)
    (hns : v.isStr = false) : '=' ∉ renderPosFrag v := by
  cases v with
  | VStr s => simp [Value.isStr] at hns
  | VCustom t => simp [Value.isRenderable] at hv
  | VBool b => cases b <;> decide
  | VNone => decide
  | VInt n => exact not_mem_intChars (by decide) (by decide) n
  | VFloat n =>
    show '=' ∉ intChars n ++ ['.', '0']
    intro hmem
    rcases List.mem_append.mp hmem with hmem | hmem
    · exact not_mem_intChars (by decide) (by decide) n hmem
    · simp at hmem

/-- A rendered positional fragment parses back to its value. -/
theorem parseFragmentChars_pos {v : Value} (h : v.isRenderable = true) :
    parseFragmentChars (renderPosFrag v) = some (Sum.inl v) := by
  cases v with
  | VBool b => cases b <;> decide
  | VNone => decide
  | VCustom t => simp [Value.isRenderable] at h
  | VStr s =>
    show parseFragmentChars (quoteChar :: (s.toList ++ [quoteChar])) = some (Sum.inl (.VStr s))
    simp only [parseFragmentChars, if_pos rfl]
    rw [show quoteChar :: (s.toList ++ [quoteChar]) = renderPosFrag (.VStr s) from rfl,
      unrenderChars_renderPosFrag h]
    rfl
  | VInt n =>
    show parseFragmentChars (intChars n) = some (Sum.inl (.VInt n))
    obtain ⟨c, t, hct⟩ : ∃ c t, intChars n = c :: t := by
      cases h2 : intChars n with
      | nil => exact absurd h2 (intChars_ne_nil n)
      | cons c t => exact ⟨c, t, rfl⟩
    have hcdm : c.isDigit = true ∨ c = '-' :=
      intChars_mem n c (by rw [hct]; exact List.mem_cons_self _ _)
    have hcq : ¬(c = quoteChar) := by
      intro he
      subst he
      rcases hcdm with h2 | h2 <;> exact absurd h2 (by decide)
    have hnomem : '=' ∉ (c :: t) := by
      rw [← hct]
      exact not_mem_intChars (by decide) (by decide) n
    have hcont : (c :: t).contains '=' = false := by
      cases hcc : (c :: t).contains '=' with
      | false => rfl
      | true => exact absurd ((charList_contains_iff _ _).mp hcc) hnomem
    rw [hct]
    simp only [parseFragmentChars, if_neg hcq, hcont, Bool.false_eq_true, if_false]
    rw [← hct, show intChars n = renderPosFrag (.VInt n) from rfl,
      unrenderChars_renderPosFrag h]
    rfl
  | VFloat n =>
    show parseFragmentChars (intChars n ++ ['.', '0']) = some (Sum.inl (.VFloat n))
    obtain ⟨c, t, hct⟩ : ∃ c t, intChars n = c :: t := by
      cases h2 : intChars n with
      | nil => exact absurd h2 (intChars_ne_nil n)
      | cons c t => exact ⟨c, t, rfl⟩
    have hcdm : c.isDigit = true ∨ c = '-' :=
      intChars_mem n c (by rw [hct]; exact List.mem_cons_self _ _)
    have hcq : ¬(c = quoteChar) := by
      intro he
      subst he
      rcases hcdm with h2 | h2 <;> exact absurd h2 (by decide)
    have hnomem : '=' ∉ (c :: (t ++ ['.', '0'])) := by
      rw [show c :: (t ++ ['.', '0']) = (c :: t) ++ ['.', '0'] from rfl, ← hct]
      exact eq_not_mem_renderPosFrag h rfl
    have hcont : (c :: (t ++ ['.', '0'])).contains '=' = false := by
      cases hcc : (c :: (t ++ ['.', '0'])).contains '=' with
      | false => rfl
      | true => exact absurd ((charList_contains_iff _ _).mp hcc) hnomem
    have hfrag : intChars n ++ ['.', '0'] = c :: (t ++ ['.', '0']) := by
      rw [hct]
      rfl
    rw [hfrag]
    simp only [parseFragmentChars, if_neg hcq, hcont, Bool.false_eq_true, if_false]
    rw [← hfrag, show intChars n ++ ['.', '0'] = renderPosFrag (.VFloat n) from rfl,
      unrenderChars_renderPosFrag h]
    rfl

/-- A rendered keyword fragment parses back to its name/value pair. -/
theorem parseFragmentChars_kw {k : String} {v : Value}
    (hk : isPyIdentChars k.toList = true) (hv : v.isRenderable = true) :
    parseFragmentChars (renderKwFrag (k, v)) = some (Sum.inr (k, v)) := by
  obtain ⟨c, t, hct⟩ : ∃ c t, k.toList = c :: t := by
    cases h2 : k.toList with
    | nil => rw [h2] at hk; simp [isPyIdentChars] at hk
    | cons c t => exact ⟨c, t, rfl⟩
  rw [hct] at hk
  simp only [isPyIdentChars, Bool.and_eq_true, Bool.or_eq_true, List.all_eq_true] at hk
  obtain ⟨hc, hall⟩ := hk
  have hfrag : renderKwFrag (k, v) = c :: (t ++ '=' :: renderPosFrag v) := by
    unfold renderKwFrag
    rw [hct]
    rfl
  have hcq : ¬(c = quoteChar) := by
    rcases hc with hc | hc
    · exact (alpha_char_ne hc).2
    · rw [of_decide_eq_true hc]
      decide
  have hcont : (c :: (t ++ '=' :: renderPosFrag v)).contains '=' = true := by
    rw [charList_contains_iff]
    simp
  have hpall : ∀ x ∈ c :: t, (decide (x ≠ '=')) = true := by
    intro x hx
    rw [decide_eq_true_eq]
    rcases List.mem_cons.mp hx with hx | hx
    · subst hx
      rcases hc with hc | hc
      · exact (alpha_char_ne hc).1
      · rw [of_decide_eq_true hc]
        decide
    · rcases hall x hx with h2 | h2
      · exact alnum_char_ne h2
      · rw [of_decide_eq_true h2]
        decide
  obtain ⟨htake, hdrop⟩ := takeWhile_dropWhile_append (c :: t) '=' (renderPosFrag v)
    hpall (by decide)
  rw [hfrag]
  simp only [parseFragmentChars, if_neg hcq, hcont, if_true]
  rw [show c :: (t ++ '=' :: renderPosFrag v) = (c :: t) ++ '=' :: renderPosFrag v from rfl,
    htake, hdrop]
  simp only [List.drop_succ_cons, List.drop_zero]
  rw [unrenderChars_renderPosFrag hv, ← hct, string_mk_toList]
  rfl

/-- Splitting an already well-shaped fragment list. -/
theorem splitSum_round (as : List Value) (ks : List (String × Value)) :
    splitSum (as.map Sum.inl ++ ks.map Sum.inr) = some (as, ks) := by
  induction as with
  | nil =>
    induction ks with
    | nil => rfl
    | cons p rest ihk =>
      simp only [List.map_nil, List.nil_append, List.map_cons] at ihk ⊢
      simp [splitSum, ihk]
  | cons v rest iha =>
    simp [splitSum, iha]

/-- `mapOption` over an append of two successful lists. -/
theorem mapOption_append {α β : Type} (f : α → Option β) :
    ∀ (l1 l2 : List α) (b1 b2 : List β),
      mapOption f l1 = some b1 → mapOption f l2 = some b2 →
      mapOption f (l1 ++ l2) = some (b1 ++ b2) := by
  intro l1
  induction l1 with
  | nil =>
    intro l2 b1 b2 h1 h2
    simp only [mapOption, Option.some.injEq] at h1
    subst h1
    simpa using h2
  | cons a rest ih =>
    intro l2 b1 b2 h1 h2
    simp only [mapOption] at h1
    cases hfa : f a <;> rw [hfa] at h1
    · simp at h1
    case some b =>
      cases hrest : mapOption f rest <;> rw [hrest] at h1
      · simp at h1
      case some bs =>
        simp only [Option.some.injEq] at h1
        subst h1
        simp only [List.cons_append, mapOption]
        rw [List.append_eq, hfa, ih l2 bs b2 hrest h2]

/-- `mapOption` of a pointwise-successful function. -/
theorem mapOption_of_forall {α β : Type} (f : α → Option β) (g : α → β) :
    ∀ l : List α, (∀ a ∈ l, f a = some (g a)) → mapOption f l = some (l.map g) := by
  intro l
  induction l with
  | nil => intro _; rfl
  | cons a rest ih =>
    intro hall
    simp only [mapOption, hall a (List.mem_cons_self _ _),
      ih fun x hx => hall x (List.mem_cons_of_mem _ hx), List.map_cons]

/-- The indexed separator rule of the preview loop (a separator after every
fragment except the last, which gets one exactly when `kw` is set) joins to
`sepConcat`. -/
theorem enumFlag_join_eq_sepConcat (sep : List Char) (kw : Bool) :
    ∀ (frags : List (List Char)) (n total : Nat), n + frags.length = total →
      ((List.enumFrom n frags).map fun q =>
        q.2 ++ if (decide (total > 1) && decide (q.1 ≠ total - 1)) || kw
               then sep else []).flatten
      = sepConcat sep kw frags := by
  intro frags
  induction frags with
  | nil => intro n total hn; rfl
  | cons f rest ih =>
    intro n total hn
    cases rest with
    | nil =>
      have h1 : n = total - 1 := by
        simp only [List.length_cons, List.length_nil] at hn
        omega
      subst h1
      simp [List.enumFrom, sepConcat]
    | cons g rest2 =>
      have hlen : n + (rest2.length + 2) = total := by
        simpa using hn
      have h1 : decide (total > 1) = true := by
        rw [decide_eq_true_eq]
        omega
      have h2 : decide (n ≠ total - 1) = true := by
        rw [decide_eq_true_eq]
        omega
      rw [show List.enumFrom n (f :: g :: rest2)
          = (n, f) :: List.enumFrom (n + 1) (g :: rest2) from rfl,
        List.map_cons, List.flatten_cons]
      simp only []
      rw [ih (n + 1) total (by simp only [List.length_cons]; omega), h1, h2]
      simp [sepConcat, List.append_assoc]

/-- The keyword loop (no trailing separator) joins to `sepConcat` with
`tail = false`. -/
theorem enumFlag_join_eq_sepConcat_notail (sep : List Char) :
    ∀ (frags : List (List Char)) (n total : Nat), n + frags.length = total →
      ((List.enumFrom n frags).map fun q =>
        q.2 ++ if decide (total > 1) && decide (q.1 ≠ total - 1)
               then sep else []).flatten
      = sepConcat sep false frags := by
  intro frags n total hn
  rw [← enumFlag_join_eq_sepConcat sep false frags n total hn]
  congr 1
  apply List.map_congr_left
  intro q _
  rw [Bool.or_false]

/-- Joining an always-separated prefix with a separated non-empty suffix. -/
theorem sepConcat_append (sep : List Char) :
    ∀ (A B : List (List Char)), B ≠ [] →
      sepConcat sep true A ++ sepConcat sep false B = sepConcat sep false (A ++ B) := by
  intro A
  induction A with
  | nil => intro B _; rfl
  | cons f rest ih =>
    intro B hB
    cases rest with
    | nil =>
      cases B with
      | nil => exact absurd rfl hB
      | cons g B2 => simp [sepConcat, List.append_assoc]
    | cons f2 rest2 =>
      simp only [sepConcat, List.cons_append]
      rw [List.append_assoc, List.append_assoc, ih B hB]
      simp [List.append_assoc, List.append_eq]

/-- The two preview loops joined equal the fragment list joined with a
separator between consecutive fragments. -/
theorem preview_body_eq (sep : List Char) (argFrags kwFrags : List (List Char))
    (aLen kLen : Nat) (ha : aLen = argFrags.length) (hkl : kLen = kwFrags.length) :
    ((argFrags.enum).map fun q =>
        q.2 ++ if (decide (aLen > 1) && decide (q.1 ≠ aLen - 1))
                 || decide (kLen > 0) then sep else []).flatten
    ++ ((kwFrags.enum).map fun q =>
        q.2 ++ if decide (kLen > 1) && decide (q.1 ≠ kLen - 1)
               then sep else []).flatten
    = sepConcat sep false (argFrags ++ kwFrags) := by
  subst ha
  subst hkl
  cases hk : kwFrags with
  | nil =>
    subst hk
    simp only [List.length_nil, List.enum_nil, List.map_nil, List.flatten_nil,
      List.append_nil]
    have h0 : decide ((0 : Nat) > 0) = false := by decide
    rw [show (List.enum argFrags) = List.enumFrom 0 argFrags from rfl]
    rw [show ((List.enumFrom 0 argFrags).map fun q =>
          q.2 ++ if (decide (argFrags.length > 1) && decide (q.1 ≠ argFrags.length - 1))
                   || decide ((0 : Nat) > 0) then sep else [])
        = ((List.enumFrom 0 argFrags).map fun q =>
          q.2 ++ if decide (argFrags.length > 1) && decide (q.1 ≠ argFrags.length - 1)
                 then sep else []) from by
      apply List.map_congr_left
      intro q _
      rw [h0, Bool.or_false]]
    exact enumFlag_join_eq_sepConcat_notail sep argFrags 0 argFrags.length (by omega)
  | cons kf krest =>
    have hkw : decide ((kf :: krest).length > 0) = true := by
      rw [decide_eq_true_eq]
      simp
    rw [show (List.enum argFrags) = List.enumFrom 0 argFrags from rfl,
      show (List.enum (kf :: krest)) = List.enumFrom 0 (kf :: krest) from rfl]
    rw [show ((List.enumFrom 0 argFrags).map fun q =>
          q.2 ++ if (decide (argFrags.length > 1) && decide (q.1 ≠ argFrags.length - 1))
                   || decide ((kf :: krest).length > 0) then sep else [])
        = ((List.enumFrom 0 argFrags).map fun q =>
          q.2 ++ if (decide (argFrags.length > 1) && decide (q.1 ≠ argFrags.length - 1))
                   || true then sep else []) from by
      apply List.map_congr_left
      intro q _
      rw [hkw]]
    rw [enumFlag_join_eq_sepConcat sep true argFrags 0 argFrags.length (by omega),
      enumFlag_join_eq_sepConcat_notail sep (kf :: krest) 0 (kf :: krest).length (by omega),
      sepConcat_append sep argFrags (kf :: krest) (by simp)]

/-- `mapOption` over a mapped list with pointwise-known results. -/
theorem mapOption_map {α β γ : Type} (f : β → Option γ) (r : α → β) (s : α → γ) :
    ∀ l : List α, (∀ x ∈ l, f (r x) = some (s x)) →
      mapOption f (l.map r) = some (l.map s) := by
  intro l
  induction l with
  | nil => intro _; rfl
  | cons a rest ih =>
    intro hall
    simp only [List.map_cons, mapOption, hall a (List.mem_cons_self _ _),
      ih fun x hx => hall x (List.mem_cons_of_mem _ hx)]

/-- The preview string is exactly the header, the separator-joined argument
fragments, and the closing parenthesis. -/
theorem previewChars_eq_previewAssembled (fname : String) (ws : List Widget) :
    previewChars fname ws = previewAssembled fname ws := by
  simp only [previewChars, previewAssembled, previewFragments]
  have hbody := preview_body_eq
    (',' :: '\n' :: List.replicate (fname.toList ++ ['(']).length ' ')
    ((get_modified_values ws).1.map renderPosFrag)
    ((get_modified_values ws).2.map renderKwFrag)
    (get_modified_values ws).1.length
    (get_modified_values ws).2.length
    (by simp) (by simp)
  rw [List.append_assoc (fname.toList ++ ['(']) _ _, hbody]
  have hlen : ((get_modified_values ws).1.map renderPosFrag
      ++ (get_modified_values ws).2.map renderKwFrag).length
      = (get_modified_values ws).1.length + (get_modified_values ws).2.length := by
    simp
  simp only [hlen]

/-- **C9.** The preview is in lock-step with `get_modified_values`: the
preview string is assembled from exactly the per-argument fragments of
`previewFragments` (header, separator-joined fragments, closing), and
reversing the quoting rule on those fragments (`parseFragments`)
reconstructs exactly the positional values and keyword name/value pairs
that `get_modified_values` returns for the same widget state. -/
theorem preview_reflects_call_arguments (fname : String) (ws : List Widget)
    (hargs : ∀ v ∈ (get_modified_values ws).1, v.isRenderable = true)
    (hkws : ∀ p ∈ (get_modified_values ws).2,
        isPyIdentChars p.1.toList = true ∧ p.2.isRenderable = true) :
    parseFragments (previewFragments ws) = some (get_modified_values ws)
    ∧ preview_func_call fname ws = String.mk (previewAssembled fname ws) := by
  constructor
  · unfold parseFragments previewFragments
    have h1 : mapOption parseFragmentChars ((get_modified_values ws).1.map renderPosFrag)
        = some ((get_modified_values ws).1.map Sum.inl) :=
      mapOption_map parseFragmentChars renderPosFrag Sum.inl _
        fun v hv => parseFragmentChars_pos (hargs v hv)
    have h2 : mapOption parseFragmentChars ((get_modified_values ws).2.map renderKwFrag)
        = some ((get_modified_values ws).2.map Sum.inr) :=
      mapOption_map parseFragmentChars renderKwFrag Sum.inr _
        fun p hp => parseFragmentChars_kw (hkws p hp).1 (hkws p hp).2
    rw [mapOption_append parseFragmentChars _ _ _ _ h1 h2, Option.some_bind,
      splitSum_round]
  · unfold preview_func_call
    rw [previewChars_eq_previewAssembled]

/-- Closed instance of `preview_reflects_call_arguments` at the state with
positional `5` and keyword `b=9`. -/
theorem preview_reflects_call_arguments_witness :
    (∀ v ∈ (get_modified_values
        [⟨"a", .IntegerSpinBoxWidget, .VInt 0, .VInt 5, true, true, ""⟩,
         ⟨"b", .IntegerSpinBoxWidget, .VInt 1, .VInt 9, true, false, ""⟩]).1,
      v.isRenderable = true)
    ∧ (∀ p ∈ (get_modified_values
        [⟨"a", .IntegerSpinBoxWidget, .VInt 0, .VInt 5, true, true, ""⟩,
         ⟨"b", .IntegerSpinBoxWidget, .VInt 1, .VInt 9, true, false, ""⟩]).2,
      isPyIdentChars p.1.toList = true ∧ p.2.isRenderable = true)
    ∧ (parseFragments (previewFragments
        [⟨"a", .IntegerSpinBoxWidget, .VInt 0, .VInt 5, true, true, ""⟩,
         ⟨"b", .IntegerSpinBoxWidget, .VInt 1, .VInt 9, true, false, ""⟩])
        = some (get_modified_values
        [⟨"a", .IntegerSpinBoxWidget, .VInt 0, .VInt 5, true, true, ""⟩,
         ⟨"b", .IntegerSpinBoxWidget, .VInt 1, .VInt 9, true, false, ""⟩])
       ∧ preview_func_call "f"
        [⟨"a", .IntegerSpinBoxWidget, .VInt 0, .VInt 5, true, true, ""⟩,
         ⟨"b", .IntegerSpinBoxWidget, .VInt 1, .VInt 9, true, false, ""⟩]
        = String.mk (previewAssembled "f"
        [⟨"a", .IntegerSpinBoxWidget, .VInt 0, .VInt 5, true, true, ""⟩,
         ⟨"b", .IntegerSpinBoxWidget, .VInt 1, .VInt 9, true, false, ""⟩])) :=
  ⟨by decide, by decide,
   preview_reflects_call_arguments "f"
     [⟨"a", .IntegerSpinBoxWidget, .VInt 0, .VInt 5, true, true, ""⟩,
      ⟨"b", .IntegerSpinBoxWidget, .VInt 1, .VInt 9, true, false, ""⟩]
     (by decide) (by decide)⟩
